import Mathlib

/-!
Verification of the Matching & Guardrailed Scoring Engine of the
RaiyaRecuritment resume-scoring service.

The Lean definitions below are a shallow embedding of the Python sources:
  app/matcher.py        (phrase matcher, timeline calculator, category scorers)
  app/ai_scorer.py      (score coercion, weighted aggregation, score validator)
  app/ai_guardrails.py  (built-in and generic guardrail rules)

Modelling conventions:
  * Python strings are `List Char` (named `Str` below).
  * Python numbers (int and float) are modelled as `ℚ`; `round` is Python's
    banker's rounding (round-half-to-even) and `int(...)` truncates toward
    zero.  The model treats float arithmetic as exact rational arithmetic.
  * Python dynamic values that flow through the score maps and rule records
    are a small dynamic type `PyVal` (None, number, string).
  * Fallible code paths (a Python `try`/`except` or a raised exception) are
    modelled with `Except` / `Option`.
-/

namespace Raiya

section
/- Batteries seals the rational primitives; re-opening them lets `decide`
evaluate the model on concrete inputs. -/
attribute [local semireducible] Rat.add Rat.mul Rat.sub Rat.inv

/-! ## Python numeric primitives -/

/-- Python `round(x)` on a real value: round half to even, returning an
integer (source: used as `int(round(...))` throughout `matcher.py` and
`ai_scorer.py`). -/
def pyRound (q : ℚ) : ℤ :=
  let f : ℤ := q.floor
  let r : ℚ := q - (f : ℚ)
  if r < 1/2 then f
  else if 1/2 < r then f + 1
  else if f % 2 = 0 then f else f + 1

/-- Python `int(x)` on a number: truncation toward zero. -/
def pyTrunc (q : ℚ) : ℤ :=
  if 0 ≤ q then q.floor else -((-q).floor)

/-- Python `round(x, 2)` (two decimal places, half to even). -/
def round2 (q : ℚ) : ℚ :=
  (pyRound (q * 100) : ℚ) / 100

/-- `max(0, min(100, n))`, the clamp used at every score boundary. -/
def clamp100 (n : ℤ) : ℤ := max 0 (min 100 n)

/-- Python float division `a / b`, with `b = 0` mapped to the caller's
exception handler outcome (every division in the modelled sources sits in a
`try` block whose handler returns the same value the junk result yields; the
call sites note this).  Written via `Rat.divInt` so that the kernel can
evaluate it. -/
def pyDiv (a b : ℚ) : ℚ := Rat.divInt (a.num * b.den) (b.num * a.den)

/-! ## Strings and characters -/

/-- Python strings, modelled as explicit character lists. -/
abbrev Str := List Char

/-- Python `str.strip()` / `\s`: ASCII whitespace. -/
def isPySpace (c : Char) : Bool :=
  c = ' ' || c = '\t' || c = '\n' || c = '\r' || c = '\x0b' || c = '\x0c'

/-- Python regex `\w` (word character); the model covers the ASCII range,
which is what every claim exercises. -/
def isWordChar (c : Char) : Bool :=
  c.isAlpha || c.isDigit || c = '_'

/-- Case-insensitive character comparison (`re.IGNORECASE` / `.lower()`),
ASCII case folding. -/
def lowEq (c d : Char) : Bool := c.toLower = d.toLower

/-- Python `s.lower()`. -/
def lowerStr (s : Str) : Str := s.map Char.toLower

/-- Python `s.strip()`. -/
def stripStr (s : Str) : Str :=
  ((s.dropWhile isPySpace).reverse.dropWhile isPySpace).reverse

/-- Python `needle in haystack` (substring containment). -/
def containsSub (haystack needle : Str) : Bool :=
  (List.range (haystack.length + 1)).any fun i =>
    decide (i + needle.length ≤ haystack.length) &&
      (List.range needle.length).all fun j =>
        haystack.getD (i + j) ' ' = needle.getD j ' '

/-! ## Phrase matcher (`app/matcher.py`)

`_make_regex_pattern(t)` builds, from the stripped target `t`:
  * `\bT\b` when `t` is purely word characters;
  * otherwise `escaped(t)` with `\b` prepended iff the first character is a
    word character, and with `(?!\w)` appended (the `re.match(r"\w$", t)`
    test in the source anchors at position 0, so for any stripped target of
    length ≥ 2 that reaches the general branch it never fires and the
    trailing piece is always the negative lookahead).

Since `\b` placed after a word character holds exactly when the next
character is absent or not a word character — the same condition as
`(?!\w)` — every generated pattern means:
  * the escaped literal occurs (case-insensitively) at some position, and
  * if the literal starts with a word character, the preceding character is
    absent or not a word character, and
  * the following character is absent or not a word character.
`patAt` below is that semantics; `searchLit` is `re.search`. -/

/-- The literal characters of `lit` occur, case-insensitively, at offset `i`
of `s`. -/
def litAt (s : Str) (i : ℕ) (lit : Str) : Bool :=
  decide (i + lit.length ≤ s.length) &&
    (List.range lit.length).all fun j => lowEq (lit.getD j ' ') (s.getD (i + j) ' ')

/-- `\b` immediately before offset `i` when the literal starts with a word
character: the previous character is absent or not a word character. -/
def prevFree (s : Str) (i : ℕ) : Bool :=
  decide (i = 0) || !isWordChar (s.getD (i - 1) ' ')

/-- Trailing `(?!\w)` (equivalently `\b` after a word character) at offset
`j`: the character there is absent or not a word character. -/
def nextFree (s : Str) (j : ℕ) : Bool :=
  decide (s.length ≤ j) || !isWordChar (s.getD j ' ')

/-- The pattern `_make_regex_pattern` builds for (stripped) `lit` matches
`s` at offset `i`. -/
def patAt (s : Str) (i : ℕ) (lit : Str) : Bool :=
  litAt s i lit &&
    (!isWordChar (lit.getD 0 ' ') || prevFree s i) &&
    nextFree s (i + lit.length)

/-- `re.search(_make_regex_pattern(lit), s, re.IGNORECASE) is not None`. -/
def searchLit (s : Str) (lit : Str) : Bool :=
  (List.range (s.length + 1)).any fun i => patAt s i lit

/-- The `" \n "` separator used to join corpus fragments. -/
def sepStr : Str := [' ', '\n', ' ']

/-- `" \n ".join(fragments)`. -/
def joinSep : List Str → Str
  | [] => []
  | [s] => s
  | s :: rest => s ++ sepStr ++ joinSep rest

/-- `" \n ".join([str(s) for s in source if s])` from `_extract_matches`. -/
def srcCombined (source : List Str) : Str :=
  joinSep (source.filter fun s => !s.isEmpty)

/-- `_extract_matches(source, targets)`: returns `(matched, missing)`.
Empty (after strip) targets are skipped entirely. -/
def extractMatches (source targets : List Str) : List Str × List Str :=
  let src := srcCombined source
  targets.foldl
    (fun acc t =>
      let tc := stripStr t
      if tc.isEmpty then acc
      else if searchLit src tc then (acc.1 ++ [t], acc.2)
      else (acc.1, acc.2 ++ [t]))
    ([], [])

/-! ## Experience scoring (`compute_experience_score`, matcher.py 353-385)

The JD experience range `{"min": .., "max": ..}` is modelled with numeric
(or absent) bounds; Python values that fail `float(...)` conversion behave
like absent bounds in the source and are not modelled separately. -/

/-- The JD experience range after `_parse_experience_range`. -/
structure ExpRange where
  min : Option ℚ
  max : Option ℚ
deriving DecidableEq

/-- `compute_experience_score(total_years, jd_experience_range)`.  Division
by zero raises `ZeroDivisionError` in Python, which the source catches and
turns into 0; in the model `pyDiv x 0 = 0`, and the clamp then also
produces 0, so the two agree. -/
def computeExperienceScore (totalYears : ℚ) (r : ExpRange) : ℤ :=
  match r.min, r.max with
  | none, none => 0
  | some minY, _ =>
      if minY ≤ totalYears then 100
      else if minY ≤ 0 then 0
      else pyRound (max 0 (min 100 (pyDiv totalYears minY * 100)))
  | none, some maxY =>
      if totalYears ≤ maxY then 100
      else pyRound (max 0 (min 100 (pyDiv maxY totalYears * 100)))

/-! ## Salary scoring (`_parse_salary_criteria_and_score`, matcher.py 426-450) -/

/-- Python `int(c)` digit test. -/
def isDigitChar (c : Char) : Bool := c.isDigit

/-- Numeric value of a digit string (empty list gives 0; callers guarantee
at least one digit). -/
def digitsToNat (ds : List Char) : ℕ :=
  ds.foldl (fun acc c => acc * 10 + (c.toNat - '0'.toNat)) 0

/-- Parse the regex group `(\d+\.?\d*)` at the head of `s`: one or more
digits, an optional dot, then any digits.  Returns the rational value and
the rest of the string.  The character classes of the surrounding patterns
are disjoint from `[0-9.]`, so greedy matching needs no backtracking. -/
def parseNumGroup (s : Str) : Option (ℚ × Str) :=
  let intPart := s.takeWhile isDigitChar
  if intPart.isEmpty then none
  else
    let rest := s.dropWhile isDigitChar
    match rest with
    | '.' :: rest2 =>
        let fracPart := rest2.takeWhile isDigitChar
        let rest3 := rest2.dropWhile isDigitChar
        some ((digitsToNat intPart : ℚ) +
          Rat.divInt (digitsToNat fracPart) (10 ^ fracPart.length), rest3)
    | _ => some ((digitsToNat intPart : ℚ), rest)

/-- `\s*` — drop leading whitespace. -/
def dropSpaces (s : Str) : Str := s.dropWhile isPySpace

/-- `[-to]+` — one or more of the characters `-`, `t`, `o` (the separator
class of the salary range pattern). -/
def isRangeSepChar (c : Char) : Bool := c = '-' || c = 't' || c = 'o'

/-- `re.match(r"^<\s*(\d+\.?\d*)", k)`: the bound if it matches. -/
def matchLt (k : Str) : Option ℚ :=
  match k with
  | '<' :: rest => (parseNumGroup (dropSpaces rest)).map Prod.fst
  | _ => none

/-- `re.match(r"^>\s*(\d+\.?\d*)", k)`. -/
def matchGt (k : Str) : Option ℚ :=
  match k with
  | '>' :: rest => (parseNumGroup (dropSpaces rest)).map Prod.fst
  | _ => none

/-- `re.match(r"^(\d+\.?\d*)\s*[-to]+\s*(\d+\.?\d*)", k)`. -/
def matchRange (k : Str) : Option (ℚ × ℚ) := do
  let (a, r1) ← parseNumGroup k
  let r2 := dropSpaces r1
  let seps := r2.takeWhile isRangeSepChar
  if seps.isEmpty then none
  else
    let r3 := dropSpaces (r2.dropWhile isRangeSepChar)
    let (b, _) ← parseNumGroup r3
    some (a, b)

/-- `re.match(r"^(\d+\.?\d*)$", k)` (anchored at both ends). -/
def matchExact (k : Str) : Option ℚ :=
  match parseNumGroup k with
  | some (n, []) => some n
  | _ => none

/-- Fourth pattern check of the loop body of
`_parse_salary_criteria_and_score`: exact number. -/
def salaryKeyExact (candidate : ℚ) (k : Str) (val : ℚ) : Option ℤ :=
  match matchExact k with
  | some n => if candidate = n then some (pyRound val) else none
  | none => none

/-- Third pattern check of the loop body: `A-B` range (separator `[-to]+`). -/
def salaryKeyRange (candidate : ℚ) (k : Str) (val : ℚ) : Option ℤ :=
  match matchRange k with
  | some (a, b) =>
      if a ≤ candidate ∧ candidate ≤ b then some (pyRound val)
      else salaryKeyExact candidate k val
  | none => salaryKeyExact candidate k val

/-- Second pattern check of the loop body: `>N`. -/
def salaryKeyGt (candidate : ℚ) (k : Str) (val : ℚ) : Option ℤ :=
  match matchGt k with
  | some n =>
      if n < candidate then some (pyRound val)
      else salaryKeyRange candidate k val
  | none => salaryKeyRange candidate k val

/-- One key of the salary criteria, checked against the candidate salary as
in the body of the `for` loop of `_parse_salary_criteria_and_score`
(patterns tried in source order: `<N`, `>N`, `A-B`, exact); `some score`
when a pattern matches and its comparison holds. -/
def salaryKeyScore (candidate : ℚ) (key : Str) (val : ℚ) : Option ℤ :=
  let k := lowerStr (stripStr key)
  match matchLt k with
  | some n =>
      if candidate < n then some (pyRound val)
      else salaryKeyGt candidate k val
  | none => salaryKeyGt candidate k val

/-- The key loop of `_parse_salary_criteria_and_score`: first matching
bucket wins, otherwise 0. -/
def salaryLoop (criteria : List (Str × ℚ)) (c : ℚ) : ℤ :=
  match criteria with
  | [] => 0
  | (k, v) :: rest =>
      match salaryKeyScore c k v with
      | some score => score
      | none => salaryLoop rest c

/-- `_parse_salary_criteria_and_score(salary_criteria, candidate_salary)`;
`candidate = none` models `candidate_salary is None`. -/
def parseSalaryCriteriaAndScore (criteria : List (Str × ℚ)) (candidate : Option ℚ) : ℤ :=
  match candidate with
  | none => 0
  | some c => salaryLoop criteria c

/-- Python truthiness for an optional number (`None` and `0` are falsy). -/
def truthyQ : Option ℚ → Bool
  | none => false
  | some q => q ≠ 0

/-- Python `a or b` on two optional numbers, as in
`s.get("expected_ctc_lpa") or s.get("current_ctc_lpa")`
(matcher.py 710-714). -/
def pyOrQ (a b : Option ℚ) : Option ℚ :=
  if truthyQ a then a else b

/-- The candidate `salary` block of the resume. -/
structure SalaryBlock where
  expected_ctc_lpa : Option ℚ
  current_ctc_lpa : Option ℚ
deriving DecidableEq

/-- The salary category score of `score_resume_against_jd`: candidate value
selection followed by bucket matching. -/
def salaryScoreOf (criteria : List (Str × ℚ)) (s : SalaryBlock) : ℤ :=
  parseSalaryCriteriaAndScore criteria (pyOrQ s.expected_ctc_lpa s.current_ctc_lpa)

/-! ## Semantic fallback matcher (`_semantic_check_missing`, matcher.py 50-98)

The sentence-embedding model is abstracted by its observable behaviour: the
cosine similarity it assigns to a pair of texts.  `none` models the states
in which `get_semantic_model()` returns `None` (library missing or model
initialization failed). -/

/-- The loaded sentence-embedding model, abstracted by the cosine
similarity `util.cos_sim(model.encode(a), model.encode(b))`. -/
structure SemModel where
  sim : Str → Str → ℚ

/-- Maximum similarity of `target` against the encoded sources
(`cosine_scores[i].max()`; `0.0` when there are no sources). -/
def maxSim (m : SemModel) (sources : List Str) (target : Str) : ℚ :=
  sources.foldl (fun acc s => max acc (m.sim target s)) 0

/-- `_semantic_check_missing(source_texts, missing_targets, threshold)`:
returns `(found, still_missing)`.  The `str(s)` coercion on sources is the
identity here because the corpus entries are strings. -/
def semanticCheckMissing (model : Option SemModel) (sourceTexts : List Str)
    (missingTargets : List Str) (threshold : ℚ) : List Str × List Str :=
  if missingTargets.isEmpty || sourceTexts.isEmpty then ([], missingTargets)
  else
    match model with
    | none => ([], missingTargets)
    | some m =>
        let validSources := sourceTexts.filter fun s => !s.isEmpty
        if validSources.isEmpty then ([], missingTargets)
        else
          missingTargets.foldl
            (fun acc t =>
              if threshold ≤ maxSim m validSources t then (acc.1 ++ [t], acc.2)
              else (acc.1, acc.2 ++ [t]))
            ([], [])

/-! ## Experience timeline calculator
(`_calculate_experience_from_timeline`, matcher.py 256-343)

`_parse_date` outcomes are modelled as `Option PyDate` fields: `none` is a
missing or unparseable date, `some d` a parse success (the literal tokens
"present"/"current"/"now" resolve to the current date, which is simply some
concrete `PyDate` here).  Dates are compared and subtracted through their
proleptic Gregorian ordinal, exactly as `datetime` comparison and
`(end - start).days` behave for midnight datetimes. -/

/-- A parsed `datetime` (at midnight). -/
structure PyDate where
  year : ℤ
  month : ℤ
  day : ℤ
deriving DecidableEq

/-- Proleptic Gregorian day number (days-from-civil); differences equal
Python's `(e - s).days` for midnight datetimes. -/
def daysFromCivil (dt : PyDate) : ℤ :=
  let y := if dt.month ≤ 2 then dt.year - 1 else dt.year
  let era := Int.fdiv y 400
  let yoe := y - era * 400
  let mp := (dt.month + 9) % 12
  let doy := Int.fdiv (153 * mp + 2) 5 + dt.day - 1
  let doe := yoe * 365 + Int.fdiv yoe 4 - Int.fdiv yoe 100 + doy
  era * 146097 + doe - 719468

/-- One resume experience entry as consumed by the timeline calculator and
the corpus builder of `score_resume_against_jd`. -/
structure TExp where
  role : Str
  description : List Str
  start_date : Option PyDate
  end_date : Option PyDate
  /-- the entry-level declared `years` field (`None` when absent) -/
  years : Option ℚ
deriving DecidableEq

/-- Relevance threshold 0.35 of the role filter. -/
def roleThreshold : ℚ := mkRat 35 100

/-- 365.25, the days-per-year divisor. -/
def daysPerYear : ℚ := mkRat 36525 100

/-- The strict role-relevance filter of `_calculate_experience_from_timeline`
(an entry is kept unless a present model scores its nonempty role strictly
below 0.35 against a truthy JD job title). -/
def timelineKeep (model : Option SemModel) (title : Option Str) (e : TExp) : Bool :=
  match title with
  | none => true
  | some t =>
      if (stripStr t).isEmpty then true
      else
        match model with
        | none => true
        | some m =>
            let role := stripStr e.role
            if role.isEmpty then true
            else !(decide (m.sim t role < roleThreshold))

/-- Step 2: the `(start, end)` ordinal pairs of the kept entries whose
dates both parsed and are not inverted. -/
def survivingIntervals (kept : List TExp) : List (ℤ × ℤ) :=
  kept.filterMap fun e =>
    match e.start_date, e.end_date with
    | some s, some en =>
        let so := daysFromCivil s
        let eo := daysFromCivil en
        if eo < so then none else some (so, eo)
    | _, _ => none

/-- Step 4 fallback: sum of the truthy declared `years` fields of the kept
entries (the source guards `if start_years:` before summing, which agrees
with summing directly since an empty sum is 0.0). -/
def declaredYearsSum (kept : List TExp) : ℚ :=
  (kept.filterMap fun e => e.years.bind fun y => if y = 0 then none else some y).sum

/-- Stable insertion of an interval behind every earlier interval whose
start is not larger. -/
def insertByStart (p : ℤ × ℤ) : List (ℤ × ℤ) → List (ℤ × ℤ)
  | [] => [p]
  | q :: rest => if q.1 ≤ p.1 then q :: insertByStart p rest else p :: q :: rest

/-- `intervals.sort(key=lambda x: x[0])` — stable sort by interval start
(insertion sort, which is stable like Python's sort). -/
def sortIntervals : List (ℤ × ℤ) → List (ℤ × ℤ)
  | [] => []
  | p :: rest => insertByStart p (sortIntervals rest)

/-- The interval-merge loop of the source, threading the current merged
interval: a next interval whose start falls strictly before the current end
extends it, anything else flushes it. -/
def mergeAux : ℤ × ℤ → List (ℤ × ℤ) → List (ℤ × ℤ)
  | cur, [] => [cur]
  | (cs, ce), (ns, ne) :: rest =>
      if ns < ce then mergeAux (cs, max ce ne) rest
      else (cs, ce) :: mergeAux (ns, ne) rest

/-- Total length in days of a list of intervals. -/
def totalDays (l : List (ℤ × ℤ)) : ℤ :=
  (l.map fun p => p.2 - p.1).sum

/-- `_calculate_experience_from_timeline(experience_list, jd_job_title)`. -/
def calcExperienceFromTimeline (model : Option SemModel) (title : Option Str)
    (exps : List TExp) : ℚ :=
  if exps.isEmpty then 0
  else
    let kept := exps.filter (timelineKeep model title)
    let ivs := survivingIntervals kept
    match sortIntervals ivs with
    | [] => declaredYearsSum kept
    | p :: rest => round2 (pyDiv (totalDays (mergeAux p rest) : ℚ) daysPerYear)

/-- Interval merging as §4.3 of the specification words it: "sort surviving
`(start, end)` pairs by start; merge any pair whose next start falls
strictly before the current merged end". -/
def specMerge : List (ℤ × ℤ) → List (ℤ × ℤ)
  | [] => []
  | [p] => [p]
  | p :: q :: rest =>
      if q.1 < p.2 then specMerge ((p.1, max p.2 q.2) :: rest)
      else p :: specMerge (q :: rest)
termination_by l => l.length

/-- The timeline total as §4.3 of the specification words it, over the same
surviving intervals: "sum the resulting disjoint intervals in days and
divide by 365.25, rounded to 2 decimals", with the step-4 fallback "if no
interval survived parsing, sum any entry-level declared `years` field
instead; otherwise return 0.0". -/
def specTimelineYears (exps : List TExp) : ℚ :=
  if exps.isEmpty then 0
  else
    let ivs := survivingIntervals exps
    if ivs.isEmpty then declaredYearsSum exps
    else round2 (pyDiv (totalDays (specMerge (sortIntervals ivs)) : ℚ) daysPerYear)

/-! ## Dynamic values and score maps (`ai_scorer.py`, `ai_guardrails.py`)

The oracle-facing code is dynamically typed: the raw AI output, the score
map threaded through the guardrails, and the rule-record fields hold JSON
values.  `PyVal` is the dynamic type (None, number, string); `ScoreMap` is
a Python dict with string keys, modelled as an association list with
replace-or-append update (insertion order preserved, keys unique). -/

/-- Decidable equality of `Except` results, for evaluating the model. -/
instance {ε α : Type} [DecidableEq ε] [DecidableEq α] : DecidableEq (Except ε α) :=
  fun a b =>
    match a, b with
    | .ok x, .ok y => if h : x = y then .isTrue (by rw [h]) else .isFalse (by simp [h])
    | .error x, .error y => if h : x = y then .isTrue (by rw [h]) else .isFalse (by simp [h])
    | .ok _, .error _ => .isFalse (by simp)
    | .error _, .ok _ => .isFalse (by simp)

/-- A dynamic (JSON-ish) Python value. -/
inductive PyVal where
  | null : PyVal
  | num : ℚ → PyVal
  | str : Str → PyVal
deriving DecidableEq

/-- `d.get(k, default)`. -/
def mapGet : List (Str × PyVal) → Str → PyVal → PyVal
  | [], _, d => d
  | (k1, v1) :: rest, k, d => if k1 = k then v1 else mapGet rest k d

/-- `d.get(k)` (no default). -/
def mapGetOpt : List (Str × PyVal) → Str → Option PyVal
  | [], _ => none
  | (k1, v1) :: rest, k => if k1 = k then some v1 else mapGetOpt rest k

/-- `d[k] = v`: replace in place if present, else append. -/
def mapSet (m : List (Str × PyVal)) (k : Str) (v : PyVal) : List (Str × PyVal) :=
  match m with
  | [] => [(k, v)]
  | (k1, v1) :: rest =>
      if k1 = k then (k, v) :: rest else (k1, v1) :: mapSet rest k v

/-- A Python dict with string keys. -/
abbrev ScoreMap := List (Str × PyVal)

/-- Python `!=` across the modelled dynamic types (values of different
types compare unequal). -/
def pyNe : PyVal → PyVal → Bool
  | .num a, .num b => a ≠ b
  | .str a, .str b => a ≠ b
  | .null, .null => false
  | _, _ => true

/-- Decimal digit string of a natural number. -/
def natToStr (n : ℕ) : Str := Nat.toDigits 10 n

/-- Decimal digit string of an integer. -/
def intToStr (i : ℤ) : Str :=
  if i < 0 then '-' :: natToStr i.natAbs else natToStr i.natAbs

/-- Python `str(v)`.  Integral numbers print their decimal digits; for a
non-integral number the model prints `num/den`, whereas Python prints a
float decimal expansion — the text only ever flows into audit notes, which
no claim inspects beyond equality of identically-built strings. -/
def strOfPyVal : PyVal → Str
  | .null => "None".data
  | .str s => s
  | .num q =>
      if q.den = 1 then intToStr q.num
      else intToStr q.num ++ "/".data ++ natToStr q.den

/-- `int(s)` on a string: strip, optional sign, decimal digits. -/
def pyIntOfStr (s : Str) : Option ℤ :=
  let digitVal : Str → Option ℤ := fun r =>
    if r.isEmpty || !(r.all isDigitChar) then none else some (digitsToNat r : ℤ)
  match stripStr s with
  | '+' :: r => digitVal r
  | '-' :: r => (digitVal r).map Neg.neg
  | r => digitVal r

/-- `float(s)` on a string: strip, optional sign, digits with optional
fractional part (or a leading-dot fraction), optional exponent.  `inf` and
`nan` are rejected here; in the sources every string-to-float conversion is
guarded by a handler that yields the same result as rejection. -/
def pyFloatOfStr (s : Str) : Option ℚ :=
  let pow10 : ℤ → ℚ := fun e =>
    if 0 ≤ e then ((10 : ℚ) ^ e.toNat) else Rat.divInt 1 (10 ^ (-e).toNat)
  let expInt : Str → Option ℤ := fun r =>
    let digitVal : Str → Option ℤ := fun t =>
      if t.isEmpty || !(t.all isDigitChar) then none else some (digitsToNat t : ℤ)
    match r with
    | '+' :: t => digitVal t
    | '-' :: t => (digitVal t).map Neg.neg
    | t => digitVal t
  let expPart : ℚ → Str → Option ℚ := fun mant rest =>
    match rest with
    | [] => some mant
    | 'e' :: r => (expInt r).map fun e => mant * pow10 e
    | 'E' :: r => (expInt r).map fun e => mant * pow10 e
    | _ => none
  let unsigned : Str → Option ℚ := fun t =>
    let ip := t.takeWhile isDigitChar
    let rest := t.dropWhile isDigitChar
    if ip.isEmpty then
      match rest with
      | '.' :: r2 =>
          let fp := r2.takeWhile isDigitChar
          if fp.isEmpty then none
          else expPart (Rat.divInt (digitsToNat fp) (10 ^ fp.length))
            (r2.dropWhile isDigitChar)
      | _ => none
    else
      match rest with
      | '.' :: r2 =>
          let fp := r2.takeWhile isDigitChar
          expPart ((digitsToNat ip : ℚ) +
              Rat.divInt (digitsToNat fp) (10 ^ fp.length))
            (r2.dropWhile isDigitChar)
      | _ => expPart (digitsToNat ip : ℚ) rest
  match stripStr s with
  | '+' :: r => unsigned r
  | '-' :: r => (unsigned r).map Neg.neg
  | r => unsigned r

/-- `float(v)` on a dynamic value (`None` raises, strings parse). -/
def pyFloatOf : PyVal → Option ℚ
  | .null => none
  | .num q => some q
  | .str s => pyFloatOfStr s

/-- `_clamp_and_int(v)` (ai_scorer.py 120-125): `int(round(float(v)))`
with any exception giving 0, clamped to `[0, 100]`. -/
def clampAndInt (v : PyVal) : ℤ :=
  clamp100 (match pyFloatOf v with
    | some q => pyRound q
    | none => 0)

/-! ## Weights and the weighted aggregator -/

/-- `ScoringWeights` (scoring_contracts.py): the ten category weights with
their default values. -/
structure ScoringWeights where
  skills_score : ℚ := mkRat 3 10
  experience_score : ℚ := mkRat 1 4
  relevant_experience_score : ℚ := mkRat 1 10
  projects_score : ℚ := mkRat 1 10
  certificates_score : ℚ := mkRat 1 20
  tools_score : ℚ := mkRat 1 20
  technologies_score : ℚ := mkRat 1 20
  qualification_score : ℚ := mkRat 1 20
  responsibilities_score : ℚ := mkRat 3 100
  salary_score : ℚ := mkRat 1 50
deriving DecidableEq

/-- The ten category score keys. -/
def kSkills : Str := "skills_score".data
def kExperience : Str := "experience_score".data
def kRelevant : Str := "relevant_experience_score".data
def kProjects : Str := "projects_score".data
def kCertificates : Str := "certificates_score".data
def kTools : Str := "tools_score".data
def kTechnologies : Str := "technologies_score".data
def kQualification : Str := "qualification_score".data
def kResponsibilities : Str := "responsibilities_score".data
def kSalary : Str := "salary_score".data
def kFinal : Str := "final_score".data
def kNotes : Str := "notes".data

/-- `weights.model_dump().items()`, in field order. -/
def weightItems (w : ScoringWeights) : List (Str × ℚ) :=
  [(kSkills, w.skills_score), (kExperience, w.experience_score),
   (kRelevant, w.relevant_experience_score), (kProjects, w.projects_score),
   (kCertificates, w.certificates_score), (kTools, w.tools_score),
   (kTechnologies, w.technologies_score), (kQualification, w.qualification_score),
   (kResponsibilities, w.responsibilities_score), (kSalary, w.salary_score)]

/-- `score_map.get(k, 0) * w` — multiplying a non-number raises (weights
are floats, so even an exact-integer weight never triggers Python's
string-repetition semantics here). -/
def pyValTimes (v : PyVal) (w : ℚ) : Except Str ℚ :=
  match v with
  | .num q => .ok (q * w)
  | _ => .error "TypeError".data

/-- The accumulation loop of `_compute_weighted_final`: the first
non-numeric entry raises. -/
def weightedSum (m : ScoreMap) : List (Str × ℚ) → Except Str ℚ
  | [] => .ok 0
  | (k, w) :: rest =>
      match pyValTimes (mapGet m k (.num 0)) w with
      | .error e => .error e
      | .ok t =>
          match weightedSum m rest with
          | .error e => .error e
          | .ok acc => .ok (t + acc)

/-- `_compute_weighted_final(score_map, weights)` (ai_scorer.py 128-133). -/
def computeWeightedFinal (m : ScoreMap) (w : ScoringWeights) : Except Str ℤ :=
  match weightedSum m (weightItems w) with
  | .error e => .error e
  | .ok total => .ok (pyRound total)

/-- `EXPECTED_KEYS` (ai_scorer.py 104-117). -/
def expectedKeys : List Str :=
  [kFinal, kSkills, kExperience, kRelevant, kProjects, kCertificates,
   kTools, kTechnologies, kQualification, kResponsibilities, kSalary, kNotes]

/-- The coercion loop of `validate_ai_score_output`: every expected key is
clamped to an integer in `[0, 100]`, `notes` becomes `str(...)[:240]`. -/
def coerceOut (raw : ScoreMap) : ScoreMap :=
  expectedKeys.foldl
    (fun out k =>
      if k = kNotes then
        mapSet out k (.str ((strOfPyVal (mapGet raw kNotes (.str []))).take 240))
      else
        mapSet out k (.num (clampAndInt ((mapGetOpt raw k).getD .null))))
    []

/-! ## Guardrail engine (`app/ai_guardrails.py`)

`GuardrailContext.resume` is the pydantic `ResumeFacts` record.  Its
`projects` entries are opaque dicts the rules only test for emptiness.
`summary` is an `extra` field: `none` models a resume without it, in which
case the attribute access `context.resume.summary` raises
`AttributeError`.  Experience dates are the parse outcome of
`calculate_duration`'s strict `YYYY-MM` grammar (`none` for absent,
unparseable, or calendar-invalid values — every failure path there
returns 0.0).

The generic rules come from `config/evidence_rules.json`, an external
configuration file (spec §6) that is not part of the source snapshot, so
the engine is modelled as a function of an arbitrary rule list. -/

/-- A month date `YYYY-MM` as parsed by `calculate_duration`. -/
structure YearMonth where
  year : ℤ
  month : ℤ
deriving DecidableEq

/-- An experience entry as seen by the guardrail rules. -/
structure GExp where
  role : Str
  start_date : Option YearMonth
  end_date : Option YearMonth
deriving DecidableEq

/-- The pydantic `ResumeFacts` record (scoring_contracts.py). -/
structure ResumeFacts where
  skills : List Str
  experience : List GExp
  projects : List PyVal
  certifications : List Str
  summary : Option Str
deriving DecidableEq

/-- `calculate_duration(start, end)` from `app/validator.py` (absent from
the snapshot; translated from the identical `code_preview/validator.py`
copy): duration in years, `round(months / 12, 2)`, with 0.0 for missing,
unparseable, or inverted dates. -/
def calculate_duration (s e : Option YearMonth) : ℚ :=
  match s, e with
  | some sd, some ed =>
      let months := (ed.year - sd.year) * 12 + (ed.month - sd.month)
      if months < 0 then 0 else round2 (pyDiv (months : ℚ) 12)
  | _, _ => 0

/-- `score_map.get(key, 0) > 0` — comparing a non-number with 0 raises. -/
def pyValGtZero : PyVal → Except Str Bool
  | .num q => .ok (decide (0 < q))
  | _ => .error "TypeError".data

/-- The shared body of the built-in evidence rules: zero the key and
append the note when the current value compares greater than 0 (comparing
a non-number raises). -/
def zeroIfPositive (k : Str) (note : Str) (m : ScoreMap) :
    Except Str (ScoreMap × List Str) :=
  match pyValGtZero (mapGet m k (.num 0)) with
  | .error e => .error e
  | .ok true => .ok (mapSet m k (.num 0), [note])
  | .ok false => .ok (m, [])

/-- `SkillsEvidenceRule.apply`. -/
def skillsRuleApply (m : ScoreMap) (res : ResumeFacts) :
    Except Str (ScoreMap × List Str) :=
  if res.skills.isEmpty then
    zeroIfPositive kSkills
      "[Guardrail] Skills score zeroed: No skills found in resume.".data m
  else pure (m, [])

/-- The note of `ExperienceEvidenceRule` for one key. -/
def expNote (k : Str) : Str :=
  "[Guardrail] ".data ++ k ++ " zeroed: No experience entries found.".data

/-- `ExperienceEvidenceRule.apply` (the loop over the three
experience-backed keys). -/
def experienceRuleApply (m : ScoreMap) (res : ResumeFacts) :
    Except Str (ScoreMap × List Str) :=
  if res.experience.isEmpty then
    match zeroIfPositive kExperience (expNote kExperience) m with
    | .error e => .error e
    | .ok a1 =>
        match zeroIfPositive kRelevant (expNote kRelevant) a1.1 with
        | .error e => .error e
        | .ok a2 =>
            match zeroIfPositive kResponsibilities (expNote kResponsibilities) a2.1 with
            | .error e => .error e
            | .ok a3 => .ok (a3.1, a1.2 ++ a2.2 ++ a3.2)
  else .ok (m, [])

/-- `ProjectsEvidenceRule.apply`. -/
def projectsRuleApply (m : ScoreMap) (res : ResumeFacts) :
    Except Str (ScoreMap × List Str) :=
  if res.projects.isEmpty then
    zeroIfPositive kProjects
      "[Guardrail] Projects score zeroed: No projects found.".data m
  else pure (m, [])

/-- `CertificationsEvidenceRule.apply`. -/
def certificationsRuleApply (m : ScoreMap) (res : ResumeFacts) :
    Except Str (ScoreMap × List Str) :=
  if res.certifications.isEmpty then
    zeroIfPositive kCertificates
      "[Guardrail] Certificates score zeroed: No certifications found.".data m
  else pure (m, [])

/-- A generic evidence rule condition record; `none` in `keyword` /
`threshold` / `value` models the key being absent from the JSON record
(`.get` then yields the hardcoded default), while `some .null` is an
explicit JSON `null`. -/
structure RuleCondition where
  field : Str
  operator : Str
  keyword : Option PyVal
  threshold : Option PyVal
  value : Option PyVal
deriving DecidableEq

/-- A generic evidence rule action record. -/
structure RuleAction where
  target : Str
  operation : Str
  value : PyVal
deriving DecidableEq

/-- A generic evidence rule (`config/evidence_rules.json` entry). -/
structure GenRule where
  id : Str
  condition : RuleCondition
  action : RuleAction
deriving DecidableEq

/-- The value a condition's dotted field path resolves to. -/
inductive ResolvedVal where
  | exps : List GExp → ResolvedVal
  | strList : List Str → ResolvedVal
  | strVal : Str → ResolvedVal

/-- The field resolution of `GenericEvidenceRule._evaluate_condition`:
only three paths are recognized; anything else resolves to `None`.
`resume.summary` raises `AttributeError` when the extra field is absent. -/
def resolveField (f : Str) (res : ResumeFacts) : Except Str (Option ResolvedVal) :=
  if f = "resume.experience".data then .ok (some (.exps res.experience))
  else if f = "resume.summary".data then
    match res.summary with
    | some s => .ok (some (.strVal s))
    | none => .error "AttributeError".data
  else if f = "resume.skills".data then .ok (some (.strList res.skills))
  else .ok none

/-- Python `not value` on a resolved field value. -/
def resolvedEmpty : ResolvedVal → Bool
  | .exps l => l.isEmpty
  | .strList l => l.isEmpty
  | .strVal s => s.isEmpty

/-- `condition.get("keyword", "").lower()` — `.lower()` on a non-string
raises. -/
def kwOf : Option PyVal → Except Str Str
  | none => .ok []
  | some (.str s) => .ok (lowerStr s)
  | some _ => .error "AttributeError".data

/-- A numeric comparison operand (`>=` / `<` against a non-number
raises); `d` is the `.get` default for an absent key. -/
def numOperand (d : ℚ) : Option PyVal → Except Str ℚ
  | none => .ok d
  | some (.num q) => .ok q
  | some _ => .error "TypeError".data

/-- The `contains_keyword_ratio` branch on a resolved experience list. -/
def keywordRatioCond (c : RuleCondition) (kw : Str) : ResolvedVal → Except Str Bool
  | .exps l =>
      if l.isEmpty then .ok false
      else
        match numOperand 0 c.threshold with
        | .error e => .error e
        | .ok thr =>
            .ok (decide (thr ≤
              pyDiv ((l.filter fun it => containsSub (lowerStr it.role) kw).length : ℚ)
                (l.length : ℚ)))
  | .strList l => if l.isEmpty then .ok false else .error "AttributeError".data
  | .strVal _ => .ok false

/-- The `avg_duration_months_lt` branch on a resolved value. -/
def avgDurationCond (c : RuleCondition) : ResolvedVal → Except Str Bool
  | .exps l =>
      if l.isEmpty then .ok false
      else
        match numOperand 0 c.value with
        | .error e => .error e
        | .ok limit =>
            .ok (decide (pyDiv
              ((l.map fun it => calculate_duration it.start_date it.end_date * 12).sum)
              (l.length : ℚ) < limit))
  | .strList l => if l.isEmpty then .ok false else .error "AttributeError".data
  | .strVal _ => .ok false

/-- `GenericEvidenceRule._evaluate_condition` (ai_guardrails.py 91-138). -/
def evalCondition (c : RuleCondition) (res : ResumeFacts) : Except Str Bool :=
  match resolveField c.field res with
  | .error e => .error e
  | .ok none => .ok false
  | .ok (some v) =>
      if c.operator = "empty".data then .ok (resolvedEmpty v)
      else if c.operator = "contains_keyword_ratio".data then
        match kwOf c.keyword with
        | .error e => .error e
        | .ok kw => keywordRatioCond c kw v
      else if c.operator = "avg_duration_months_lt".data then
        avgDurationCond c v
      else .ok false

/-- Python lexicographic `<=` on strings. -/
def lexLe : Str → Str → Bool
  | [], _ => true
  | _ :: _, [] => false
  | a :: as_, b :: bs => if a < b then true else if b < a then false else lexLe as_ bs

/-- `s * n` string repetition (non-positive `n` gives the empty string). -/
def strRepeat (s : Str) (n : ℤ) : Str :=
  (List.replicate n.toNat s).flatten

/-- The action arithmetic of `GenericEvidenceRule.apply`: `cap` is
`min(current, val)`, `multiply` is `int(current * val)` (including
Python's string-repetition semantics when one operand is an exact int and
the other a string), `set` overwrites, and an unknown operation leaves the
score unchanged.  Type mismatches raise. -/
def applyOperation (op : Str) (current val : PyVal) : Except Str PyVal :=
  if op = "cap".data then
    match current, val with
    | .num c, .num v => .ok (.num (min c v))
    | .str c, .str v => .ok (.str (if lexLe c v then c else v))
    | _, _ => .error "TypeError".data
  else if op = "multiply".data then
    match current, val with
    | .num c, .num v => .ok (.num (pyTrunc (c * v)))
    | .str s, .num v =>
        if v.den = 1 then
          match pyIntOfStr (strRepeat s v.num) with
          | some n => .ok (.num (n : ℚ))
          | none => .error "ValueError".data
        else .error "TypeError".data
    | .num c, .str s =>
        if c.den = 1 then
          match pyIntOfStr (strRepeat s c.num) with
          | some n => .ok (.num (n : ℚ))
          | none => .error "ValueError".data
        else .error "TypeError".data
    | _, _ => .error "TypeError".data
  else if op = "set".data then .ok val
  else .ok current

/-- The note appended for a triggered generic rule. -/
def genericRuleNote (r : GenRule) : Str :=
  "[Guardrail: ".data ++ r.id ++ "] ".data ++ r.action.target ++
    " adjusted (".data ++ r.action.operation ++ " ".data ++
    strOfPyVal r.action.value ++ ").".data

/-- The body of the `try` block of `GenericEvidenceRule.apply` for one
rule: evaluate the condition, apply the action, record a note when the
target value changed. -/
def genericTryRule (r : GenRule) (m : ScoreMap) (res : ResumeFacts) :
    Except Str (ScoreMap × List Str) :=
  match evalCondition r.condition res with
  | .error e => .error e
  | .ok false => .ok (m, [])
  | .ok true =>
      match applyOperation r.action.operation
          (mapGet m r.action.target (.num 0)) r.action.value with
      | .error e => .error e
      | .ok newScore =>
          match pyNe newScore (mapGet m r.action.target (.num 0)) with
          | true => .ok (mapSet m r.action.target newScore, [genericRuleNote r])
          | false => .ok (m, [])

/-- One iteration of the rule loop: any exception is caught and the rule
is skipped (fail-open). -/
def genericStep (r : GenRule) (m : ScoreMap) (res : ResumeFacts) :
    ScoreMap × List Str :=
  match genericTryRule r m res with
  | .ok out => out
  | .error _ => (m, [])

/-- `GenericEvidenceRule.apply` over the loaded rule list: the rules run
in order on the threaded map, notes accumulate in order. -/
def genericApplyRules : List GenRule → ScoreMap → ResumeFacts → ScoreMap × List Str
  | [], m, _ => (m, [])
  | r :: rest, m, res =>
      let s := genericStep r m res
      let out := genericApplyRules rest s.1 res
      (out.1, s.2 ++ out.2)

/-- `" ".join(notes)`. -/
def joinSpace : List Str → Str
  | [] => []
  | [s] => s
  | s :: rest => s ++ [' '] ++ joinSpace rest

/-- `apply_guardrails(score_map, context)` (ai_guardrails.py 178-197):
built-in rules in registry order, then the generic rules, then the note
append (which raises if a rule left a non-string in the `notes` slot). -/
def applyGuardrails (rules : List GenRule) (m : ScoreMap) (res : ResumeFacts) :
    Except Str ScoreMap :=
  match skillsRuleApply m res with
  | .error e => .error e
  | .ok a1 =>
      match experienceRuleApply a1.1 res with
      | .error e => .error e
      | .ok a2 =>
          match projectsRuleApply a2.1 res with
          | .error e => .error e
          | .ok a3 =>
              match certificationsRuleApply a3.1 res with
              | .error e => .error e
              | .ok a4 =>
                  let a5 := genericApplyRules rules a4.1 res
                  let allNotes := a1.2 ++ a2.2 ++ a3.2 ++ a4.2 ++ a5.2
                  if allNotes.isEmpty then .ok a5.1
                  else
                    match mapGet a5.1 kNotes (.str []) with
                    | .str existing =>
                        .ok (mapSet a5.1 kNotes
                          (.str ((existing ++ [' '] ++ joinSpace allNotes).take 500)))
                    | _ => .error "TypeError".data

/-- `validate_ai_score_output(raw_obj, weights, guardrail_context)`
(ai_scorer.py 250-287) for a dict input: coerce every expected key, run the
guardrails when a context is supplied, then unconditionally overwrite
`final_score` with the weighted sum of the (guarded) component scores. -/
def validateAiScoreOutput (raw : ScoreMap) (w : ScoringWeights)
    (ctx : Option ResumeFacts) (rules : List GenRule) : Except Str ScoreMap :=
  let out := coerceOut raw
  match (match ctx with
         | some res => applyGuardrails rules out res
         | none => .ok out) with
  | .error e => .error e
  | .ok out2 =>
      match computeWeightedFinal out2 w with
      | .error e => .error e
      | .ok final => .ok (mapSet out2 kFinal (.num (final : ℚ)))

/-! ## Relevant-experience bucket mapping
(`_map_relevant_experience_to_bucket`, matcher.py 391-420) -/

/-- `key.lower().replace(" ", "")`. -/
def normBucketKey (k : Str) : Str :=
  (lowerStr k).filter fun c => c ≠ ' '

/-- `re.match(r">=(\d+)", k)`. -/
def matchGeInt (k : Str) : Option ℚ :=
  match k with
  | '>' :: '=' :: rest =>
      let ds := rest.takeWhile isDigitChar
      if ds.isEmpty then none else some (digitsToNat ds : ℚ)
  | _ => none

/-- `re.match(r"(\d+)-(\d+)", k)`. -/
def matchIntRange (k : Str) : Option (ℚ × ℚ) :=
  let d1 := k.takeWhile isDigitChar
  if d1.isEmpty then none
  else
    match k.dropWhile isDigitChar with
    | '-' :: r2 =>
        let d2 := r2.takeWhile isDigitChar
        if d2.isEmpty then none
        else some ((digitsToNat d1 : ℚ), (digitsToNat d2 : ℚ))
    | _ => none

/-- `re.match(r"<(\d+)", k)`. -/
def matchLtInt (k : Str) : Option ℚ :=
  match k with
  | '<' :: rest =>
      let ds := rest.takeWhile isDigitChar
      if ds.isEmpty then none else some (digitsToNat ds : ℚ)
  | _ => none

/-- `_map_relevant_experience_to_bucket(years, criteria)`: three ordered
passes over the criteria — `>=N` rules first, then `A-B` ranges, then
`<N` rules — first match wins, otherwise 0. -/
def mapRelevantExperienceToBucket (years : ℚ) (criteria : List (Str × ℚ)) : ℤ :=
  let passGe := criteria.findSome? fun kv =>
    match matchGeInt (normBucketKey kv.1) with
    | some n => if n ≤ years then some (pyRound kv.2) else none
    | none => none
  let passRange := criteria.findSome? fun kv =>
    match matchIntRange (normBucketKey kv.1) with
    | some (a, b) => if a ≤ years ∧ years ≤ b then some (pyRound kv.2) else none
    | none => none
  let passLt := criteria.findSome? fun kv =>
    match matchLtInt (normBucketKey kv.1) with
    | some n => if years < n then some (pyRound kv.2) else none
    | none => none
  ((passGe.orElse fun _ => passRange).orElse fun _ => passLt).getD 0

/-! ## Project keyword extraction (`_tokenize_phrase`,
`_extract_project_keywords_from_jd`, matcher.py 199-225) -/

/-- The stopword list of `_tokenize_phrase`. -/
def stopwords : List Str :=
  ["the".data, "and".data, "a".data, "an".data, "for".data, "in".data,
   "of".data, "to".data, "on".data, "with".data, "using".data, "based".data,
   "related".data, "system".data, "create".data, "build".data, "built".data,
   "develop".data, "developed".data, "developer".data, "development".data]

/-- Split on spaces, dropping empty pieces (`txt.split()` after the
cleanup has replaced every non-`[a-z0-9 ]` character with a space). -/
def splitSpacesGo (acc : Str) : Str → List Str
  | [] => [acc.reverse]
  | c :: rest =>
      if c = ' ' then acc.reverse :: splitSpacesGo [] rest
      else splitSpacesGo (c :: acc) rest

/-- `_tokenize_phrase(text)`: lowercase, replace every character outside
`[a-z0-9 ]` with a space, split, drop stopwords. -/
def tokenizePhrase (text : Str) : List Str :=
  let txt := lowerStr text
  let cleaned := txt.map fun c => if c.isLower || c.isDigit || c = ' ' then c else ' '
  let tokens := (splitSpacesGo [] cleaned).filter fun t => !t.isEmpty
  tokens.filter fun t => !stopwords.contains t

/-- `_extract_project_keywords_from_jd(jd_projects)`: tokenize every
truthy JD project description, deduplicating while preserving order. -/
def extractProjectKeywordsFromJd (jdProjects : List Str) : List Str :=
  jdProjects.foldl
    (fun acc item =>
      if item.isEmpty then acc
      else (tokenizePhrase item).foldl
        (fun a tok => if a.contains tok then a else a ++ [tok]) acc)
    []

/-! ## The local scoring pipeline (`score_resume_against_jd`,
matcher.py 456-783)

The function runs on structures that `validate_resume_data` /
`validate_jd` (upstream normalizers, partly absent from the snapshot)
produce: well-typed records with safe defaults already in place, per
spec §7(a). -/

/-- A resume project entry. -/
structure ResumeProject where
  name : Str
  description : Str
deriving DecidableEq

/-- The validated resume document consumed by `score_resume_against_jd`. -/
structure ResumeDoc where
  skills : List Str
  experience : List TExp
  educationDegrees : List Str
  projects : List ResumeProject
  certificateNames : List Str
  summary : Str
  salary : SalaryBlock
  relevant_experience_map : List (Str × ℚ)
  total_experience_years : Option ℚ
deriving DecidableEq

/-- The JD scoring blocks the pipeline reads. -/
structure ScoringBlocks where
  relevant_experience_criteria : List (Str × ℚ)
  salary_criteria : List (Str × ℚ)
deriving DecidableEq

/-- The validated job description consumed by `score_resume_against_jd`. -/
structure JDDoc where
  skills : List Str
  technologies : List Str
  tools : List Str
  certificates : List Str
  responsibilities : List Str
  projects : List Str
  qualification : Option Str
  experience_range : ExpRange
  job_title : Option Str
  scoring : ScoringBlocks
deriving DecidableEq

/-- The comprehensive text corpus (matcher.py 482-495): skills, then per
experience entry the role and the space-joined description, then per
project the name and description, then the summary; empty strings
dropped. -/
def textCorpus (r : ResumeDoc) : List Str :=
  (r.skills ++
    (r.experience.flatMap fun e => [e.role, joinSpace e.description]) ++
    (r.projects.flatMap fun p => [p.name, p.description]) ++
    [r.summary]).filter fun s => !s.isEmpty

/-- `total_years` selection (matcher.py 497-519): trust the timeline when
it is positive, otherwise fall back to the extracted field (truthiness
coalesced to 0.0). -/
def totalYearsOf (model : Option SemModel) (r : ResumeDoc) (jd : JDDoc) : ℚ :=
  let timeline := calcExperienceFromTimeline model jd.job_title r.experience
  if 0 < timeline then timeline else (r.total_experience_years.getD 0)

/-- The shared shape of the skills / technologies / tools blocks: phrase
match, then the semantic pass over the still-missing targets, then
`int(round(100 * matched / count))`; returns
`(score, matched, missing)`. -/
def hybridCategory (model : Option SemModel) (corpus targets : List Str)
    (threshold : ℚ) : ℤ × List Str × List Str :=
  if targets.length = 0 then (0, [], [])
  else
    let pm := extractMatches corpus targets
    let sem :=
      if pm.2.isEmpty then ([], [])
      else semanticCheckMissing model corpus pm.2 threshold
    let matched := pm.1 ++ sem.1
    (pyRound (pyDiv (100 * matched.length : ℚ) (targets.length : ℚ)),
      matched, sem.2)

/-- The projects block (matcher.py 592-607): keyword ratio against the JD
project keywords; the still-missing list is discarded. -/
def projectsScoreOf (model : Option SemModel) (corpus : List Str)
    (jdProjects : List Str) : ℤ × List Str :=
  let kws := extractProjectKeywordsFromJd jdProjects
  if kws.length = 0 then (0, [])
  else
    let pm := extractMatches corpus kws
    let found := if pm.2.isEmpty then [] else (semanticCheckMissing model corpus pm.2 (mkRat 3 5)).1
    let matched := pm.1 ++ found
    (pyRound (pyDiv (100 * matched.length : ℚ) (kws.length : ℚ)), matched)

/-- The certificates block (matcher.py 612-628): phrase pass over the
resume certificate names, semantic pass over the full corpus. -/
def certificatesScoreOf (model : Option SemModel) (corpus : List Str)
    (r : ResumeDoc) (jdCerts : List Str) : ℤ :=
  if jdCerts.length = 0 then 0
  else
    let pm := extractMatches r.certificateNames jdCerts
    let found := if pm.2.isEmpty then [] else (semanticCheckMissing model corpus pm.2 (mkRat 13 20)).1
    pyRound (pyDiv (100 * (pm.1 ++ found).length : ℚ) (jdCerts.length : ℚ))

/-- The responsibilities block (matcher.py 649-663). -/
def responsibilitiesScoreOf (model : Option SemModel) (corpus : List Str)
    (jdResp : List Str) : ℤ :=
  if jdResp.length = 0 then 0
  else
    let pm := extractMatches corpus jdResp
    let found := if pm.2.isEmpty then [] else (semanticCheckMissing model corpus pm.2 (mkRat 1 2)).1
    pyRound (pyDiv (100 * (pm.1 ++ found).length : ℚ) (jdResp.length : ℚ))

/-- The qualification block (matcher.py 633-644): 100 iff some nonempty
lowered degree contains the lowered JD qualification as a substring. -/
def qualificationScoreOf (jdQual : Option Str) (degrees : List Str) : ℤ :=
  match jdQual with
  | none => 0
  | some q =>
      if q.isEmpty then 0
      else if degrees.any fun deg =>
          let d := lowerStr deg
          !d.isEmpty && containsSub d (lowerStr q)
        then 100 else 0

/-- Lookup in `relevant_experience_map` with default 0.0. -/
def rmapGet (m : List (Str × ℚ)) (k : Str) : ℚ :=
  match m.find? fun p => decide (p.1 = k) with
  | some p => p.2
  | none => 0

/-- `candidate_rel_years` (matcher.py 681-691): per JD skill the map value
(falling back to the lowercased key when the direct lookup is 0), summed
and averaged over the number of JD skills, rounded to 2 decimals. -/
def candidateRelYears (r : ResumeDoc) (jdSkills : List Str) : ℚ :=
  if jdSkills.isEmpty then 0
  else
    let total := (jdSkills.filter fun s => !s.isEmpty).foldl
      (fun acc s =>
        let y := rmapGet r.relevant_experience_map s
        let y := if y = 0 then rmapGet r.relevant_experience_map (lowerStr s) else y
        acc + y)
      0
    round2 (pyDiv total (jdSkills.length : ℚ))

/-- The fixed `WEIGHTS` table of matcher.py 10-21 (identical to the
`ScoringWeights` defaults). -/
def matcherWeights : ScoringWeights := {}

/-- The ten clamped category scores plus the recomputed `final_score`. -/
structure LocalScores where
  skills_score : ℤ
  experience_score : ℤ
  relevant_experience_score : ℤ
  projects_score : ℤ
  certificates_score : ℤ
  tools_score : ℤ
  technologies_score : ℤ
  qualification_score : ℤ
  responsibilities_score : ℤ
  salary_score : ℤ
  final_score : ℤ
deriving DecidableEq

/-- The ten category fields in `WEIGHTS` order. -/
def LocalScores.asList (s : LocalScores) : List ℤ :=
  [s.skills_score, s.experience_score, s.relevant_experience_score,
   s.projects_score, s.certificates_score, s.tools_score,
   s.technologies_score, s.qualification_score, s.responsibilities_score,
   s.salary_score]

/-- The compose step of `score_resume_against_jd` (matcher.py 725-741):
clamp each raw category value into `[0, 100]` and recompute the weighted
final score from the clamped map. -/
def composeScores (sk ex rel pj ce tl te qu re sa : ℤ) : LocalScores :=
  let s : LocalScores :=
    { skills_score := clamp100 sk
      experience_score := clamp100 ex
      relevant_experience_score := clamp100 rel
      projects_score := clamp100 pj
      certificates_score := clamp100 ce
      tools_score := clamp100 tl
      technologies_score := clamp100 te
      qualification_score := clamp100 qu
      responsibilities_score := clamp100 re
      salary_score := clamp100 sa
      final_score := 0 }
  let w := weightItems matcherWeights
  let final := pyRound ((List.zip s.asList w).foldl
    (fun acc p => acc + (p.1 : ℚ) * p.2.2) 0)
  { s with final_score := final }

/-- `score_resume_against_jd(parsed_resume, job_description)`
(matcher.py 456-783), on validated inputs: the ten category blocks, the
clamped compose step, and the weighted final score. -/
def scoreResumeAgainstJd (model : Option SemModel) (r : ResumeDoc) (jd : JDDoc) :
    LocalScores :=
  let corpus := textCorpus r
  let totalYears := totalYearsOf model r jd
  let skills := hybridCategory model corpus jd.skills (mkRat 9 20)
  let tech := hybridCategory model corpus jd.technologies (mkRat 9 20)
  let tools := hybridCategory model corpus jd.tools (mkRat 9 20)
  let projects := projectsScoreOf model corpus jd.projects
  let certificates := certificatesScoreOf model corpus r jd.certificates
  let qualification := qualificationScoreOf jd.qualification r.educationDegrees
  let responsibilities := responsibilitiesScoreOf model corpus jd.responsibilities
  let experience := computeExperienceScore totalYears jd.experience_range
  let relYears := candidateRelYears r jd.skills
  let relevant := mapRelevantExperienceToBucket relYears
    jd.scoring.relevant_experience_criteria
  let salary := salaryScoreOf jd.scoring.salary_criteria r.salary
  composeScores skills.1 experience relevant projects.1 certificates
    tools.1 tech.1 qualification responsibilities salary

/-- The ten category keys, in `WEIGHTS` order. -/
def tenKeys : List Str :=
  [kSkills, kExperience, kRelevant, kProjects, kCertificates, kTools,
   kTechnologies, kQualification, kResponsibilities, kSalary]

/-! ## Safety predicates on generic rule actions

The generic rules are external configuration; these predicates carve out
the action values under which the engine preserves the score invariants
(the claims C2 and C3 fail for unconstrained rule files, and their
amended forms are conditional on these predicates). -/

/-- A `cap` value that keeps a `[0,100]` integer in range: an integer
`≥ 0` (a null or string value makes the `min` raise, which skips the
rule and is also safe). -/
def capSafeValue (v : PyVal) : Prop :=
  (∃ n : ℤ, v = .num (n : ℚ) ∧ 0 ≤ n) ∨ v = .null ∨ ∃ s, v = .str s

/-- A `multiply` value that keeps a `[0,100]` integer in range: a factor
in `[0, 1]` (null raises and is safe; a digit string can sneak a huge
value in through Python's string repetition, so strings are excluded). -/
def mulSafeValue (v : PyVal) : Prop :=
  (∃ q : ℚ, v = .num q ∧ 0 ≤ q ∧ q ≤ 1) ∨ v = .null

/-- A `set` value that keeps a `[0,100]` integer in range. -/
def setSafeValue (v : PyVal) : Prop :=
  ∃ n : ℤ, v = .num (n : ℚ) ∧ 0 ≤ n ∧ n ≤ 100

/-- A rule whose action cannot push a ten-category score out of the
integer `[0,100]` range. -/
def ruleRangeSafe (r : GenRule) : Prop :=
  r.action.target ∈ tenKeys →
    (r.action.operation = "cap".data → capSafeValue r.action.value) ∧
    (r.action.operation = "multiply".data → mulSafeValue r.action.value) ∧
    (r.action.operation = "set".data → setSafeValue r.action.value)

/-- A rule whose action cannot raise the score at key `k` away from 0
(`multiply` and unknown operations always preserve 0). -/
def zeroSafeFor (k : Str) (r : GenRule) : Prop :=
  r.action.target = k →
    (r.action.operation = "cap".data → capSafeValue r.action.value) ∧
    (r.action.operation = "set".data → r.action.value = .num 0)

/-- A dynamic value that is an integer score within `[0, 100]`. -/
def inRange100 (v : PyVal) : Prop :=
  ∃ n : ℤ, v = .num (n : ℚ) ∧ 0 ≤ n ∧ n ≤ 100

/-- Whether a dynamic value is a string. -/
def isStrVal : PyVal → Bool
  | .str _ => true
  | _ => false

/-- Two score maps that agree at every key other than `final_score`. -/
def AgreeOff (m1 m2 : ScoreMap) : Prop :=
  ∀ k : Str, k ≠ kFinal → ∀ d, mapGet m1 k d = mapGet m2 k d

/-- Two score maps that agree at the ten category keys. -/
def AgreeTen (m1 m2 : ScoreMap) : Prop :=
  ∀ k ∈ tenKeys, ∀ d : PyVal, mapGet m1 k d = mapGet m2 k d

/-- The relation the two `final_score` entries of two parallel validator
runs satisfy: both numeric, or exactly equal. -/
def FinalRel (a b : PyVal) : Prop :=
  (∃ q1 q2 : ℚ, a = .num q1 ∧ b = .num q2) ∨ a = b

/-- The invariant carried through the guardrail chain by two validator
runs that differ only in the oracle's `final_score` field. -/
def InvMaps (m1 m2 : ScoreMap) : Prop :=
  AgreeOff m1 m2 ∧
    FinalRel (mapGet m1 kFinal (.num 0)) (mapGet m2 kFinal (.num 0))

/-! ## Concrete fixtures used by witnesses -/

/-- A raw oracle output proposing a high skills score. -/
def rawFix : ScoreMap := [(kSkills, .num 87)]

/-- A generic rule that sets `skills_score` to the out-of-range value 150
whenever the resume has no skills. -/
def rule150 : GenRule :=
  ⟨"r150".data, ⟨"resume.skills".data, "empty".data, none, none, none⟩,
    ⟨"skills_score".data, "set".data, .num 150⟩⟩

/-- A coerced-style score map with a high skills score. -/
def mFix : ScoreMap := [(kSkills, .num 87), (kNotes, .str [])]

/-- A resume with no skills and no experience entries (projects and
certifications present, summary present). -/
def resFix : ResumeFacts := ⟨[], [], [.null], ["c".data], some "s".data⟩

/-- A resume whose `summary` extra field is absent, so that a rule whose
condition reads `resume.summary` raises `AttributeError`. -/
def resNoSummary : ResumeFacts :=
  ⟨["Python".data], [⟨"Dev".data, some ⟨2020, 1⟩, some ⟨2021, 1⟩⟩], [.null],
    ["c".data], none⟩

/-- A generic rule whose condition faults on `resFix`-style resumes with a
missing summary. -/
def summaryRule : GenRule :=
  ⟨"r-summary".data, ⟨"resume.summary".data, "empty".data, none, none, none⟩,
    ⟨"skills_score".data, "set".data, .num 5⟩⟩

/-! # Theorems -/

/-! ## Score-map lemmas -/

/-- Reading the key just written. -/
theorem mapGet_set_self (m : ScoreMap) (k : Str) (v d : PyVal) :
    mapGet (mapSet m k v) k d = v := by
  induction m with
  | nil => simp [mapSet, mapGet]
  | cons hd tl ih =>
      obtain ⟨k1, v1⟩ := hd
      by_cases h : k1 = k
      · simp [mapSet, mapGet, h]
      · simpa [mapSet, mapGet, h] using ih

/-- Writing one key leaves every other key unchanged. -/
theorem mapGet_set_ne (m : ScoreMap) {k k' : Str} (v d : PyVal) (h : k' ≠ k) :
    mapGet (mapSet m k v) k' d = mapGet m k' d := by
  induction m with
  | nil =>
      simp only [mapSet, mapGet]
      rw [if_neg (Ne.symm h)]
  | cons hd tl ih =>
      obtain ⟨k1, v1⟩ := hd
      by_cases hk1 : k1 = k
      · subst hk1
        simp only [mapSet, if_pos rfl, mapGet]
        rw [if_neg (Ne.symm h), if_neg (Ne.symm h)]
      · by_cases hk' : k1 = k'
        · simp only [mapSet, if_neg hk1, mapGet, if_pos hk']
        · simp only [mapSet, if_neg hk1, mapGet, if_neg hk']
          exact ih

/-! ## Guardrail single-step lemmas -/

/-- A successful built-in zeroing step forces its key to 0 whenever the
prior value was a nonnegative number. -/
theorem zeroIfPositive_ok_self {k note : Str} {m : ScoreMap}
    {out : ScoreMap × List Str} (hok : zeroIfPositive k note m = .ok out)
    {q : ℚ} (hpre : mapGet m k (.num 0) = .num q) (hq : 0 ≤ q) :
    mapGet out.1 k (.num 0) = .num 0 := by
  by_cases h0 : 0 < q
  · have hz : zeroIfPositive k note m = .ok (mapSet m k (.num 0), [note]) := by
      unfold zeroIfPositive
      rw [hpre]
      simp [pyValGtZero, h0]
    rw [hz] at hok
    injection hok with hout
    rw [← hout, mapGet_set_self]
  · have hz : zeroIfPositive k note m = .ok (m, []) := by
      unfold zeroIfPositive
      rw [hpre]
      simp [pyValGtZero, h0]
    rw [hz] at hok
    injection hok with hout
    rw [← hout]
    rw [show ((m, []) : ScoreMap × List Str).1 = m from rfl, hpre,
      le_antisymm (not_lt.mp h0) hq]

/-- A successful built-in zeroing step leaves every other key unchanged. -/
theorem zeroIfPositive_ok_other {k note : Str} {m : ScoreMap}
    {out : ScoreMap × List Str} (hok : zeroIfPositive k note m = .ok out)
    {k' : Str} (hne : k' ≠ k) (d : PyVal) :
    mapGet out.1 k' d = mapGet m k' d := by
  unfold zeroIfPositive at hok
  rcases hgt : pyValGtZero (mapGet m k (.num 0)) with e | gt
  · rw [hgt] at hok
    exact Except.noConfusion hok
  · rw [hgt] at hok
    cases gt with
    | true =>
        injection hok with hout
        rw [← hout]
        exact mapGet_set_ne _ _ _ hne
    | false =>
        injection hok with hout
        rw [← hout]

/-- A zero-safe action applied to a current value of 0 yields 0 (when it
does not raise). -/
theorem applyOperation_zero {op : Str} {val nv : PyVal}
    (hcap : op = "cap".data → capSafeValue val)
    (hset : op = "set".data → val = .num 0)
    (hop : applyOperation op (.num 0) val = .ok nv) : nv = .num 0 := by
  by_cases hcapop : op = "cap".data
  · rcases hcap hcapop with ⟨n, hv, hn⟩ | hv | ⟨s, hv⟩ <;> subst hv
    · have hmin : min (0 : ℚ) (n : ℚ) = 0 := min_eq_left (by exact_mod_cast hn)
      simp [applyOperation, hcapop, hmin] at hop
      exact hop.symm
    · simp [applyOperation, hcapop] at hop
    · simp [applyOperation, hcapop] at hop
  · by_cases hmulop : op = "multiply".data
    · rcases val with _ | v | s
      · simp [applyOperation, hcapop, hmulop] at hop
      · have htr : pyTrunc ((0 : ℚ) * v) = 0 := by
          rw [zero_mul]
          decide
        simp [applyOperation, hcapop, hmulop, htr] at hop
        exact hop.symm
      · have h3 : pyIntOfStr ([] : Str) = none := by decide
        simp [applyOperation, hcapop, hmulop, strRepeat, h3] at hop
    · by_cases hsetop : op = "set".data
      · rw [hset hsetop] at hop
        simp [applyOperation, hcapop, hmulop, hsetop] at hop
        exact hop.symm
      · simp [applyOperation, hcapop, hmulop, hsetop] at hop
        exact hop.symm

/-- One generic rule step leaves a zero at `k` in place when the rule is
zero-safe for `k`. -/
theorem genericStep_zero (r : GenRule) (m : ScoreMap) (res : ResumeFacts)
    (k : Str) (hsafe : zeroSafeFor k r) (h : mapGet m k (.num 0) = .num 0) :
    mapGet (genericStep r m res).1 k (.num 0) = .num 0 := by
  rcases htry : genericTryRule r m res with e | out
  · simp only [genericStep, htry]
    exact h
  · simp only [genericStep, htry]
    unfold genericTryRule at htry
    rcases hc : evalCondition r.condition res with e | c
    · rw [hc] at htry
      exact Except.noConfusion htry
    · rw [hc] at htry
      cases c with
      | false =>
          injection htry with hout
          rw [← hout]
          exact h
      | true =>
          dsimp only at htry
          rcases hop : applyOperation r.action.operation
              (mapGet m r.action.target (.num 0)) r.action.value with e | nv
          · rw [hop] at htry
            exact Except.noConfusion htry
          · rw [hop] at htry
            dsimp only at htry
            rcases hne2 : pyNe nv (mapGet m r.action.target (.num 0)) with _ | _
            · rw [hne2] at htry
              injection htry with hout
              rw [← hout]
              exact h
            · rw [hne2] at htry
              injection htry with hout
              by_cases ht : r.action.target = k
              · exfalso
                have hcur : mapGet m r.action.target (.num 0) = .num 0 := by
                  rw [ht]
                  exact h
                rw [hcur] at hop hne2
                obtain ⟨hcap, hset⟩ := hsafe ht
                rw [applyOperation_zero hcap hset hop] at hne2
                simp [pyNe] at hne2
              · rw [← hout]
                rw [show ∀ a b, ((a, b) : ScoreMap × List Str).1 = a from fun _ _ => rfl]
                rw [mapGet_set_ne _ _ _ fun hck => ht (by rw [hck])]
                exact h

/-- The generic rule chain leaves a zero at `k` in place when every rule
is zero-safe for `k`. -/
theorem genericApplyRules_zero (rules : List GenRule) (m : ScoreMap)
    (res : ResumeFacts) (k : Str) (hsafe : ∀ r ∈ rules, zeroSafeFor k r)
    (h : mapGet m k (.num 0) = .num 0) :
    mapGet (genericApplyRules rules m res).1 k (.num 0) = .num 0 := by
  induction rules generalizing m with
  | nil => exact h
  | cons r rest ih =>
      simp only [genericApplyRules]
      exact ih (genericStep r m res).1
        (fun r2 hr2 => hsafe r2 (List.mem_cons_of_mem r hr2))
        (genericStep_zero r m res k (hsafe r (List.mem_cons_self r rest)) h)

/-! ## Built-in rule stage lemmas -/

/-- The skills rule never touches other keys. -/
theorem skillsRuleApply_other {m : ScoreMap} {res : ResumeFacts}
    {out : ScoreMap × List Str} (hok : skillsRuleApply m res = .ok out)
    {k : Str} (hne : k ≠ kSkills) (d : PyVal) :
    mapGet out.1 k d = mapGet m k d := by
  unfold skillsRuleApply at hok
  by_cases he : res.skills.isEmpty = true
  · rw [if_pos he] at hok
    exact zeroIfPositive_ok_other hok hne d
  · rw [if_neg he] at hok
    injection hok with hout
    rw [← hout]

/-- The projects rule never touches other keys. -/
theorem projectsRuleApply_other {m : ScoreMap} {res : ResumeFacts}
    {out : ScoreMap × List Str} (hok : projectsRuleApply m res = .ok out)
    {k : Str} (hne : k ≠ kProjects) (d : PyVal) :
    mapGet out.1 k d = mapGet m k d := by
  unfold projectsRuleApply at hok
  by_cases he : res.projects.isEmpty = true
  · rw [if_pos he] at hok
    exact zeroIfPositive_ok_other hok hne d
  · rw [if_neg he] at hok
    injection hok with hout
    rw [← hout]

/-- The certifications rule never touches other keys. -/
theorem certificationsRuleApply_other {m : ScoreMap} {res : ResumeFacts}
    {out : ScoreMap × List Str} (hok : certificationsRuleApply m res = .ok out)
    {k : Str} (hne : k ≠ kCertificates) (d : PyVal) :
    mapGet out.1 k d = mapGet m k d := by
  unfold certificationsRuleApply at hok
  by_cases he : res.certifications.isEmpty = true
  · rw [if_pos he] at hok
    exact zeroIfPositive_ok_other hok hne d
  · rw [if_neg he] at hok
    injection hok with hout
    rw [← hout]

/-- The experience rule never touches keys other than its three targets. -/
theorem experienceRuleApply_other {m : ScoreMap} {res : ResumeFacts}
    {out : ScoreMap × List Str} (hok : experienceRuleApply m res = .ok out)
    {k : Str} (h1 : k ≠ kExperience) (h2 : k ≠ kRelevant)
    (h3 : k ≠ kResponsibilities) (d : PyVal) :
    mapGet out.1 k d = mapGet m k d := by
  unfold experienceRuleApply at hok
  by_cases he : res.experience.isEmpty = true
  · rw [if_pos he] at hok
    rcases hz1 : zeroIfPositive kExperience (expNote kExperience) m with e | a1
    · rw [hz1] at hok
      exact Except.noConfusion hok
    · rw [hz1] at hok
      dsimp only at hok
      rcases hz2 : zeroIfPositive kRelevant (expNote kRelevant) a1.1 with e | a2
      · rw [hz2] at hok
        exact Except.noConfusion hok
      · rw [hz2] at hok
        dsimp only at hok
        rcases hz3 : zeroIfPositive kResponsibilities (expNote kResponsibilities) a2.1
          with e | a3
        · rw [hz3] at hok
          exact Except.noConfusion hok
        · rw [hz3] at hok
          injection hok with hout
          rw [← hout]
          calc mapGet a3.1 k d = mapGet a2.1 k d := zeroIfPositive_ok_other hz3 h3 d
            _ = mapGet a1.1 k d := zeroIfPositive_ok_other hz2 h2 d
            _ = mapGet m k d := zeroIfPositive_ok_other hz1 h1 d
  · rw [if_neg he] at hok
    injection hok with hout
    rw [← hout]

/-- With no skills evidence, a successful skills rule leaves 0 at
`skills_score` (for a nonnegative numeric prior value). -/
theorem skillsRuleApply_forced {m : ScoreMap} {res : ResumeFacts}
    {out : ScoreMap × List Str} (hok : skillsRuleApply m res = .ok out)
    (he : res.skills = []) {q : ℚ}
    (hpre : mapGet m kSkills (.num 0) = .num q) (hq : 0 ≤ q) :
    mapGet out.1 kSkills (.num 0) = .num 0 := by
  unfold skillsRuleApply at hok
  rw [if_pos (by rw [he]; rfl)] at hok
  exact zeroIfPositive_ok_self hok hpre hq

/-- With no experience entries, a successful experience rule leaves 0 at
all three experience-backed keys (for nonnegative numeric prior values). -/
theorem experienceRuleApply_forced {m : ScoreMap} {res : ResumeFacts}
    {out : ScoreMap × List Str} (hok : experienceRuleApply m res = .ok out)
    (he : res.experience = [])
    (hpre : ∀ k ∈ [kExperience, kRelevant, kResponsibilities],
      ∃ q : ℚ, mapGet m k (.num 0) = .num q ∧ 0 ≤ q) :
    mapGet out.1 kExperience (.num 0) = .num 0 ∧
    mapGet out.1 kRelevant (.num 0) = .num 0 ∧
    mapGet out.1 kResponsibilities (.num 0) = .num 0 := by
  unfold experienceRuleApply at hok
  rw [if_pos (by rw [he]; rfl)] at hok
  rcases hz1 : zeroIfPositive kExperience (expNote kExperience) m with e | a1
  · rw [hz1] at hok
    exact Except.noConfusion hok
  · rw [hz1] at hok
    dsimp only at hok
    rcases hz2 : zeroIfPositive kRelevant (expNote kRelevant) a1.1 with e | a2
    · rw [hz2] at hok
      exact Except.noConfusion hok
    · rw [hz2] at hok
      dsimp only at hok
      rcases hz3 : zeroIfPositive kResponsibilities (expNote kResponsibilities) a2.1
        with e | a3
      · rw [hz3] at hok
        exact Except.noConfusion hok
      · rw [hz3] at hok
        injection hok with hout
        rw [← hout]
        obtain ⟨q1, hq1, hq1n⟩ := hpre kExperience (by simp)
        obtain ⟨q2, hq2, hq2n⟩ := hpre kRelevant (by simp)
        obtain ⟨q3, hq3, hq3n⟩ := hpre kResponsibilities (by simp)
        have hx1 : mapGet a1.1 kExperience (.num 0) = .num 0 :=
          zeroIfPositive_ok_self hz1 hq1 hq1n
        have hx2 : mapGet a2.1 kRelevant (.num 0) = .num 0 :=
          zeroIfPositive_ok_self hz2
            (by rw [zeroIfPositive_ok_other hz1 (by decide) _]; exact hq2) hq2n
        have hx3 : mapGet a3.1 kResponsibilities (.num 0) = .num 0 :=
          zeroIfPositive_ok_self hz3
            (by rw [zeroIfPositive_ok_other hz2 (by decide) _,
              zeroIfPositive_ok_other hz1 (by decide) _]; exact hq3) hq3n
        refine ⟨?_, ?_, hx3⟩
        · rw [show (a3.1, a1.2 ++ a2.2 ++ a3.2).1 = a3.1 from rfl,
            zeroIfPositive_ok_other hz3 (by decide) _,
            zeroIfPositive_ok_other hz2 (by decide) _]
          exact hx1
        · rw [show (a3.1, a1.2 ++ a2.2 ++ a3.2).1 = a3.1 from rfl,
            zeroIfPositive_ok_other hz3 (by decide) _]
          exact hx2

/-- A successful `apply_guardrails` run decomposes into its four built-in
stages, the generic chain, and an optional notes write. -/
theorem applyGuardrails_decomp {rules : List GenRule} {m : ScoreMap}
    {res : ResumeFacts} {out : ScoreMap}
    (hok : applyGuardrails rules m res = .ok out) :
    ∃ a1 a2 a3 a4 : ScoreMap × List Str,
      skillsRuleApply m res = .ok a1 ∧
      experienceRuleApply a1.1 res = .ok a2 ∧
      projectsRuleApply a2.1 res = .ok a3 ∧
      certificationsRuleApply a3.1 res = .ok a4 ∧
      (out = (genericApplyRules rules a4.1 res).1 ∨
        ∃ v : PyVal, out = mapSet (genericApplyRules rules a4.1 res).1 kNotes v) := by
  unfold applyGuardrails at hok
  rcases h1 : skillsRuleApply m res with e | a1
  · rw [h1] at hok
    exact Except.noConfusion hok
  · rw [h1] at hok
    dsimp only at hok
    rcases h2 : experienceRuleApply a1.1 res with e | a2
    · rw [h2] at hok
      exact Except.noConfusion hok
    · rw [h2] at hok
      dsimp only at hok
      rcases h3 : projectsRuleApply a2.1 res with e | a3
      · rw [h3] at hok
        exact Except.noConfusion hok
      · rw [h3] at hok
        dsimp only at hok
        rcases h4 : certificationsRuleApply a3.1 res with e | a4
        · rw [h4] at hok
          exact Except.noConfusion hok
        · rw [h4] at hok
          dsimp only at hok
          refine ⟨a1, a2, a3, a4, rfl, h2, h3, h4, ?_⟩
          by_cases hn : (a1.2 ++ a2.2 ++ a3.2 ++ a4.2 ++
              (genericApplyRules rules a4.1 res).2).isEmpty = true
          · rw [if_pos hn] at hok
            injection hok with h
            exact Or.inl h.symm
          · rw [if_neg hn] at hok
            rcases hv : mapGet (genericApplyRules rules a4.1 res).1 kNotes (.str [])
              with _ | q | s
            · rw [hv] at hok
              exact Except.noConfusion hok
            · rw [hv] at hok
              exact Except.noConfusion hok
            · rw [hv] at hok
              dsimp only at hok
              injection hok with h
              exact Or.inr ⟨_, h.symm⟩

/-! ## C3 — empty-evidence guardrails -/

/-- Claim C3 counterexample: a data-driven generic rule may raise a zeroed
score back up.  With no skills in the resume, the built-in rule zeroes
`skills_score`, but a configured rule `set skills_score := 40` (whose
condition `resume.skills empty` also triggers) runs afterwards, so the
post-guardrail `skills_score` is 40, not 0. -/
theorem c3_counterexample :
    (applyGuardrails
        [⟨"r".data, ⟨"resume.skills".data, "empty".data, none, none, none⟩,
          ⟨"skills_score".data, "set".data, .num 40⟩⟩]
        [(kSkills, .num 87), (kNotes, .str [])]
        ⟨[], [], [.null], ["c".data], some "s".data⟩).toOption.map
      (fun mm => mapGet mm kSkills (.num 0)) = some (.num 40) ∧
    PyVal.num 40 ≠ PyVal.num 0 := by
  decide

/-- Claim C3 (corrected): after `apply_guardrails`, an empty skills list
forces `skills_score` to 0 and an empty experience list forces
`experience_score`, `relevant_experience_score` and
`responsibilities_score` to 0 — provided the pre-guardrail values at those
keys are nonnegative numbers (as the coercion step guarantees; a negative
value is left unchanged by the built-in `> 0` test) and no generic rule
can raise those keys away from 0 (`set` to nonzero or `cap` below 0). -/
theorem c3_empty_evidence (m : ScoreMap) (res : ResumeFacts)
    (rules : List GenRule) (out : ScoreMap)
    (hok : applyGuardrails rules m res = .ok out)
    (hsafe : ∀ r ∈ rules, zeroSafeFor kSkills r ∧ zeroSafeFor kExperience r ∧
      zeroSafeFor kRelevant r ∧ zeroSafeFor kResponsibilities r)
    (hpre : ∀ k ∈ [kSkills, kExperience, kRelevant, kResponsibilities],
      ∃ q : ℚ, mapGet m k (.num 0) = .num q ∧ 0 ≤ q) :
    (res.skills = [] → mapGet out kSkills (.num 0) = .num 0) ∧
    (res.experience = [] →
      mapGet out kExperience (.num 0) = .num 0 ∧
      mapGet out kRelevant (.num 0) = .num 0 ∧
      mapGet out kResponsibilities (.num 0) = .num 0) := by
  obtain ⟨a1, a2, a3, a4, h1, h2, h3, h4, hfin⟩ := applyGuardrails_decomp hok
  have houtk : ∀ k : Str, k ≠ kNotes →
      mapGet out k (.num 0) = mapGet (genericApplyRules rules a4.1 res).1 k (.num 0) := by
    intro k hk
    rcases hfin with h | ⟨v, h⟩
    · rw [h]
    · rw [h, mapGet_set_ne _ _ _ hk]
  constructor
  · intro hskills
    obtain ⟨q, hq, hqn⟩ := hpre kSkills (by simp)
    have hz1 : mapGet a1.1 kSkills (.num 0) = .num 0 :=
      skillsRuleApply_forced h1 hskills hq hqn
    have hz4 : mapGet a4.1 kSkills (.num 0) = .num 0 := by
      rw [certificationsRuleApply_other h4 (by decide) _,
        projectsRuleApply_other h3 (by decide) _,
        experienceRuleApply_other h2 (by decide) (by decide) (by decide) _]
      exact hz1
    rw [houtk kSkills (by decide)]
    exact genericApplyRules_zero rules a4.1 res kSkills
      (fun r hr => (hsafe r hr).1) hz4
  · intro hexp
    have hpre1 : ∀ k ∈ [kExperience, kRelevant, kResponsibilities],
        ∃ q : ℚ, mapGet a1.1 k (.num 0) = .num q ∧ 0 ≤ q := by
      intro k hk
      simp only [List.mem_cons, List.not_mem_nil, or_false] at hk
      obtain ⟨q, hq, hqn⟩ := hpre k (by
        rcases hk with h | h | h <;> rw [h] <;> decide)
      refine ⟨q, ?_, hqn⟩
      have hkne : k ≠ kSkills := by
        rcases hk with h | h | h <;> rw [h] <;> decide
      rw [skillsRuleApply_other h1 hkne _]
      exact hq
    obtain ⟨he1, he2, he3⟩ := experienceRuleApply_forced h2 hexp hpre1
    have step : ∀ k : Str, k ≠ kNotes → k ≠ kProjects → k ≠ kCertificates →
        zeroSafeFor k = zeroSafeFor k → mapGet a2.1 k (.num 0) = .num 0 →
        (∀ r ∈ rules, zeroSafeFor k r) → mapGet out k (.num 0) = .num 0 := by
      intro k hkn hkp hkc _ hz2 hsafek
      have hz4 : mapGet a4.1 k (.num 0) = .num 0 := by
        rw [certificationsRuleApply_other h4 hkc _,
          projectsRuleApply_other h3 hkp _]
        exact hz2
      rw [houtk k hkn]
      exact genericApplyRules_zero rules a4.1 res k hsafek hz4
    exact ⟨step kExperience (by decide) (by decide) (by decide) rfl he1
        (fun r hr => (hsafe r hr).2.1),
      step kRelevant (by decide) (by decide) (by decide) rfl he2
        (fun r hr => (hsafe r hr).2.2.1),
      step kResponsibilities (by decide) (by decide) (by decide) rfl he3
        (fun r hr => (hsafe r hr).2.2.2)⟩

/-- Witness for C3: an empty-evidence resume with a nonnegative coerced
map and an empty rule list yields 0 at all four forced keys. -/
theorem c3_witness :
    ((applyGuardrails [] mFix resFix).toOption.map fun mm =>
      (mapGet mm kSkills (.num 0), mapGet mm kExperience (.num 0),
        mapGet mm kRelevant (.num 0), mapGet mm kResponsibilities (.num 0))) =
      some (.num 0, .num 0, .num 0, .num 0) := by
  rcases hok : applyGuardrails [] mFix resFix with e | out
  · have hisok : (applyGuardrails [] mFix resFix).isOk = true := by decide
    rw [hok] at hisok
    exact Bool.noConfusion hisok
  · have h := c3_empty_evidence mFix resFix [] out hok
      (fun r hr => absurd hr (List.not_mem_nil r))
      (by
        intro k hk
        fin_cases hk
        · exact ⟨87, by decide, by decide⟩
        · exact ⟨0, by decide, by decide⟩
        · exact ⟨0, by decide, by decide⟩
        · exact ⟨0, by decide, by decide⟩)
    simp only [Except.toOption, Option.map]
    rw [h.1 rfl, (h.2 rfl).1, (h.2 rfl).2.1, (h.2 rfl).2.2]

/-! ## C2 — the clamp invariant -/

/-- `clamp100` bounds. -/
theorem clamp100_bounds (n : ℤ) : 0 ≤ clamp100 n ∧ clamp100 n ≤ 100 :=
  ⟨le_max_left 0 _, max_le (by norm_num) (min_le_left _ _)⟩

/-- Truncation of a nonnegative value is nonnegative. -/
theorem pyTrunc_nonneg {q : ℚ} (h : 0 ≤ q) : 0 ≤ pyTrunc q := by
  unfold pyTrunc
  rw [if_pos h]
  exact Rat.le_floor.mpr (by exact_mod_cast h)

/-- Truncation of a nonnegative value bounded by an integer stays below
that integer. -/
theorem pyTrunc_le {q : ℚ} {c : ℤ} (h0 : 0 ≤ q) (h : q ≤ (c : ℚ)) :
    pyTrunc q ≤ c := by
  unfold pyTrunc
  rw [if_pos h0]
  have hfl : ((q.floor : ℚ)) ≤ q := Rat.le_floor.mp le_rfl
  exact_mod_cast le_trans hfl h

/-- Every coerced category entry is the clamp of the raw value. -/
theorem coerceOut_ten (raw : ScoreMap) : ∀ k ∈ tenKeys,
    mapGet (coerceOut raw) k (.num 0) =
      .num ((clampAndInt ((mapGetOpt raw k).getD .null) : ℤ) : ℚ) := by
  intro k hk
  fin_cases hk <;> rfl

/-- `_clamp_and_int` lands in `[0, 100]`. -/
theorem clampAndInt_bounds (v : PyVal) : 0 ≤ clampAndInt v ∧ clampAndInt v ≤ 100 :=
  clamp100_bounds _

/-- A range-safe action applied to an in-range current value stays in
range (when it does not raise). -/
theorem applyOperation_range {op : Str} {cur val nv : PyVal}
    (hcap : op = "cap".data → capSafeValue val)
    (hmul : op = "multiply".data → mulSafeValue val)
    (hset : op = "set".data → setSafeValue val)
    (hcur : inRange100 cur)
    (hop : applyOperation op cur val = .ok nv) : inRange100 nv := by
  obtain ⟨n, hcv, hn0, hn1⟩ := hcur
  subst hcv
  by_cases hcapop : op = "cap".data
  · rcases hcap hcapop with ⟨v2, hv, hv0⟩ | hv | ⟨s, hv⟩ <;> subst hv
    · simp only [applyOperation, if_pos hcapop] at hop
      injection hop with h
      refine ⟨min n v2, ?_, le_min hn0 hv0, le_trans (min_le_left _ _) hn1⟩
      rw [← h]
      norm_cast
    · simp [applyOperation, hcapop] at hop
    · simp [applyOperation, hcapop] at hop
  · by_cases hmulop : op = "multiply".data
    · rcases hmul hmulop with ⟨q, hv, hq0, hq1⟩ | hv <;> subst hv
      · simp only [applyOperation, if_neg hcapop, if_pos hmulop] at hop
        injection hop with h
        have hnn : (0 : ℚ) ≤ (n : ℚ) * q := mul_nonneg (by exact_mod_cast hn0) hq0
        have hle : (n : ℚ) * q ≤ ((100 : ℤ) : ℚ) := by
          calc (n : ℚ) * q ≤ (n : ℚ) * 1 :=
                mul_le_mul_of_nonneg_left hq1 (by exact_mod_cast hn0)
            _ = (n : ℚ) := mul_one _
            _ ≤ ((100 : ℤ) : ℚ) := by exact_mod_cast hn1
        exact ⟨pyTrunc ((n : ℚ) * q), h.symm, pyTrunc_nonneg hnn, pyTrunc_le hnn hle⟩
      · simp [applyOperation, hcapop, hmulop] at hop
    · by_cases hsetop : op = "set".data
      · obtain ⟨v2, hv, hv0, hv1⟩ := hset hsetop
        subst hv
        simp only [applyOperation, if_neg hcapop, if_neg hmulop, if_pos hsetop] at hop
        injection hop with h
        exact ⟨v2, h.symm, hv0, hv1⟩
      · simp only [applyOperation, if_neg hcapop, if_neg hmulop, if_neg hsetop] at hop
        injection hop with h
        exact ⟨n, h.symm, hn0, hn1⟩

/-- One range-safe generic rule step keeps all ten keys in range. -/
theorem genericStep_range (r : GenRule) (m : ScoreMap) (res : ResumeFacts)
    (hr : ruleRangeSafe r)
    (h : ∀ k ∈ tenKeys, inRange100 (mapGet m k (.num 0))) :
    ∀ k ∈ tenKeys, inRange100 (mapGet (genericStep r m res).1 k (.num 0)) := by
  intro k hk
  rcases htry : genericTryRule r m res with e | out
  · simp only [genericStep, htry]
    exact h k hk
  · simp only [genericStep, htry]
    unfold genericTryRule at htry
    rcases hc : evalCondition r.condition res with e | c
    · rw [hc] at htry
      exact Except.noConfusion htry
    · rw [hc] at htry
      cases c with
      | false =>
          injection htry with hout
          rw [← hout]
          exact h k hk
      | true =>
          dsimp only at htry
          rcases hop : applyOperation r.action.operation
              (mapGet m r.action.target (.num 0)) r.action.value with e | nv
          · rw [hop] at htry
            exact Except.noConfusion htry
          · rw [hop] at htry
            dsimp only at htry
            rcases hne2 : pyNe nv (mapGet m r.action.target (.num 0)) with _ | _
            · rw [hne2] at htry
              injection htry with hout
              rw [← hout]
              exact h k hk
            · rw [hne2] at htry
              injection htry with hout
              rw [← hout]
              rw [show ∀ a b, ((a, b) : ScoreMap × List Str).1 = a from fun _ _ => rfl]
              by_cases hkt : k = r.action.target
              · rw [hkt, mapGet_set_self]
                obtain ⟨hcap, hmul, hset⟩ := hr (hkt ▸ hk)
                exact applyOperation_range hcap hmul hset (hkt ▸ h k hk) hop
              · rw [mapGet_set_ne _ _ _ hkt]
                exact h k hk

/-- The generic rule chain keeps all ten keys in range when every rule is
range-safe. -/
theorem genericApplyRules_range (rules : List GenRule) (m : ScoreMap)
    (res : ResumeFacts) (hsafe : ∀ r ∈ rules, ruleRangeSafe r)
    (h : ∀ k ∈ tenKeys, inRange100 (mapGet m k (.num 0))) :
    ∀ k ∈ tenKeys, inRange100 (mapGet (genericApplyRules rules m res).1 k (.num 0)) := by
  induction rules generalizing m with
  | nil => exact h
  | cons r rest ih =>
      intro k hk
      simp only [genericApplyRules]
      exact ih (genericStep r m res).1
        (fun r2 hr2 => hsafe r2 (List.mem_cons_of_mem r hr2))
        (genericStep_range r m res (hsafe r (List.mem_cons_self r rest)) h) k hk

/-- A built-in zeroing step keeps any key in range. -/
theorem zeroIfPositive_ok_range {k note : Str} {m : ScoreMap}
    {out : ScoreMap × List Str} (hok : zeroIfPositive k note m = .ok out)
    {k' : Str} (h : inRange100 (mapGet m k' (.num 0))) :
    inRange100 (mapGet out.1 k' (.num 0)) := by
  by_cases hk : k' = k
  · subst hk
    obtain ⟨n, hn, hn0, hn1⟩ := h
    rw [zeroIfPositive_ok_self hok hn (by exact_mod_cast hn0)]
    exact ⟨0, by norm_num, le_refl 0, by norm_num⟩
  · rw [zeroIfPositive_ok_other hok hk]
    exact h

/-- The four built-in stages keep all ten keys in range. -/
theorem builtinStages_range {m : ScoreMap} {res : ResumeFacts}
    {a1 a2 a3 a4 : ScoreMap × List Str}
    (h1 : skillsRuleApply m res = .ok a1)
    (h2 : experienceRuleApply a1.1 res = .ok a2)
    (h3 : projectsRuleApply a2.1 res = .ok a3)
    (h4 : certificationsRuleApply a3.1 res = .ok a4)
    (h : ∀ k ∈ tenKeys, inRange100 (mapGet m k (.num 0))) :
    ∀ k ∈ tenKeys, inRange100 (mapGet a4.1 k (.num 0)) := by
  have s1 : ∀ k ∈ tenKeys, inRange100 (mapGet a1.1 k (.num 0)) := by
    intro k hk
    unfold skillsRuleApply at h1
    by_cases he : res.skills.isEmpty = true
    · rw [if_pos he] at h1
      exact zeroIfPositive_ok_range h1 (h k hk)
    · rw [if_neg he] at h1
      injection h1 with hout
      rw [← hout]
      exact h k hk
  have s2 : ∀ k ∈ tenKeys, inRange100 (mapGet a2.1 k (.num 0)) := by
    intro k hk
    unfold experienceRuleApply at h2
    by_cases he : res.experience.isEmpty = true
    · rw [if_pos he] at h2
      rcases hz1 : zeroIfPositive kExperience (expNote kExperience) a1.1 with e | b1
      · rw [hz1] at h2
        exact Except.noConfusion h2
      · rw [hz1] at h2
        dsimp only at h2
        rcases hz2 : zeroIfPositive kRelevant (expNote kRelevant) b1.1 with e | b2
        · rw [hz2] at h2
          exact Except.noConfusion h2
        · rw [hz2] at h2
          dsimp only at h2
          rcases hz3 : zeroIfPositive kResponsibilities (expNote kResponsibilities) b2.1
            with e | b3
          · rw [hz3] at h2
            exact Except.noConfusion h2
          · rw [hz3] at h2
            injection h2 with hout
            rw [← hout]
            exact zeroIfPositive_ok_range hz3
              (zeroIfPositive_ok_range hz2 (zeroIfPositive_ok_range hz1 (s1 k hk)))
    · rw [if_neg he] at h2
      injection h2 with hout
      rw [← hout]
      exact s1 k hk
  have s3 : ∀ k ∈ tenKeys, inRange100 (mapGet a3.1 k (.num 0)) := by
    intro k hk
    unfold projectsRuleApply at h3
    by_cases he : res.projects.isEmpty = true
    · rw [if_pos he] at h3
      exact zeroIfPositive_ok_range h3 (s2 k hk)
    · rw [if_neg he] at h3
      injection h3 with hout
      rw [← hout]
      exact s2 k hk
  intro k hk
  unfold certificationsRuleApply at h4
  by_cases he : res.certifications.isEmpty = true
  · rw [if_pos he] at h4
    exact zeroIfPositive_ok_range h4 (s3 k hk)
  · rw [if_neg he] at h4
    injection h4 with hout
    rw [← hout]
    exact s3 k hk

/-- A successful `validate_ai_score_output` run decomposes into coercion,
the optional guardrail stage, and the final-score overwrite. -/
theorem validateAiScoreOutput_decomp {raw : ScoreMap} {w : ScoringWeights}
    {ctx : Option ResumeFacts} {rules : List GenRule} {out : ScoreMap}
    (hok : validateAiScoreOutput raw w ctx rules = .ok out) :
    ∃ (out2 : ScoreMap) (final : ℤ),
      out = mapSet out2 kFinal (.num (final : ℚ)) ∧
      computeWeightedFinal out2 w = .ok final ∧
      ((ctx = none ∧ out2 = coerceOut raw) ∨
        (∃ res, ctx = some res ∧ applyGuardrails rules (coerceOut raw) res = .ok out2)) := by
  unfold validateAiScoreOutput at hok
  rcases ctx with _ | res
  · dsimp only at hok
    rcases hfin : computeWeightedFinal (coerceOut raw) w with e | f
    · rw [hfin] at hok
      exact Except.noConfusion hok
    · rw [hfin] at hok
      injection hok with h
      exact ⟨coerceOut raw, f, h.symm, hfin, Or.inl ⟨rfl, rfl⟩⟩
  · dsimp only at hok
    rcases hg : applyGuardrails rules (coerceOut raw) res with e | out2
    · rw [hg] at hok
      exact Except.noConfusion hok
    · rw [hg] at hok
      dsimp only at hok
      rcases hfin : computeWeightedFinal out2 w with e | f
      · rw [hfin] at hok
        exact Except.noConfusion hok
      · rw [hfin] at hok
        injection hok with h
        exact ⟨out2, f, h.symm, hfin, Or.inr ⟨res, rfl, hg⟩⟩

/-- Claim C2 counterexample: with the out-of-range `set 150` rule
configured, the oracle path returns `skills_score = 150`, violating the
claimed `0 ≤ s ≤ 100` invariant. -/
theorem c2_counterexample :
    ((validateAiScoreOutput rawFix {} (some resFix) [rule150]).toOption.map
      fun mm => mapGet mm kSkills (.num 0)) = some (.num 150) ∧
    ¬((150 : ℚ) ≤ 100) := by
  decide

/-- Claim C2 (corrected): every category score of the local path
`score_resume_against_jd` is an integer in `[0, 100]` unconditionally; on
the oracle path `validate_ai_score_output` every category score of a
successful run is an integer in `[0, 100]` provided each configured
generic rule action is range-safe (an unconstrained rule file can push a
score out of range, as the counterexample shows). -/
theorem c2_clamp_invariant :
    (∀ model r jd, ∀ s ∈ (scoreResumeAgainstJd model r jd).asList,
      0 ≤ s ∧ s ≤ 100) ∧
    (∀ raw w ctx rules out, validateAiScoreOutput raw w ctx rules = .ok out →
      (∀ rl ∈ rules, ruleRangeSafe rl) →
      ∀ k ∈ tenKeys, ∃ n : ℤ,
        mapGet out k (.num 0) = .num (n : ℚ) ∧ 0 ≤ n ∧ n ≤ 100) := by
  constructor
  · intro model r jd s hs
    have hcompose : ∀ q1 q2 q3 q4 q5 q6 q7 q8 q9 q10 : ℤ,
        ∀ s2 ∈ (composeScores q1 q2 q3 q4 q5 q6 q7 q8 q9 q10).asList,
          0 ≤ s2 ∧ s2 ≤ 100 := by
      intro q1 q2 q3 q4 q5 q6 q7 q8 q9 q10 s2 hs2
      simp only [composeScores, LocalScores.asList, List.mem_cons,
        List.not_mem_nil, or_false] at hs2
      rcases hs2 with h | h | h | h | h | h | h | h | h | h <;>
        (rw [h]; exact clamp100_bounds _)
    exact hcompose _ _ _ _ _ _ _ _ _ _ s hs
  · intro raw w ctx rules out hok hsafe k hk
    obtain ⟨out2, final, hout, hfin, hstage⟩ := validateAiScoreOutput_decomp hok
    have hkf : k ≠ kFinal := by
      fin_cases hk <;> decide
    rw [hout, mapGet_set_ne _ _ _ hkf]
    have hcoerce : ∀ k2 ∈ tenKeys, inRange100 (mapGet (coerceOut raw) k2 (.num 0)) := by
      intro k2 hk2
      rw [coerceOut_ten raw k2 hk2]
      exact ⟨clampAndInt ((mapGetOpt raw k2).getD .null), rfl,
        (clampAndInt_bounds _).1, (clampAndInt_bounds _).2⟩
    rcases hstage with ⟨_, h2⟩ | ⟨res, _, hg⟩
    · rw [h2]
      exact hcoerce k hk
    · obtain ⟨a1, a2, a3, a4, g1, g2, g3, g4, gfin⟩ := applyGuardrails_decomp hg
      have hten : ∀ k2 ∈ tenKeys,
          inRange100 (mapGet (genericApplyRules rules a4.1 res).1 k2 (.num 0)) :=
        genericApplyRules_range rules a4.1 res hsafe
          (builtinStages_range g1 g2 g3 g4 hcoerce)
      have hkn : k ≠ kNotes := by
        fin_cases hk <;> decide
      rcases gfin with h | ⟨v, h⟩
      · rw [h]
        exact hten k hk
      · rw [h, mapGet_set_ne _ _ _ hkn]
        exact hten k hk

/-- Witness for C2's oracle part: a concrete successful run with an empty
(hence range-safe) rule list has an in-range `skills_score`. -/
theorem c2_witness :
    (match validateAiScoreOutput rawFix {} (some resFix) [] with
      | .ok out => ∃ n : ℤ,
          mapGet out kSkills (.num 0) = .num (n : ℚ) ∧ 0 ≤ n ∧ n ≤ 100
      | .error _ => False) := by
  rcases hok : validateAiScoreOutput rawFix {} (some resFix) [] with e | out
  · have hisok : (validateAiScoreOutput rawFix {} (some resFix) []).isOk = true := by
      decide
    rw [hok] at hisok
    exact Bool.noConfusion hisok
  · exact c2_clamp_invariant.2 rawFix {} (some resFix) [] out hok
      (fun rl hrl => absurd hrl (List.not_mem_nil rl)) kSkills (by decide)

/-! ## C4 — the `C++` boundary cases -/

/-- Claim C4 counterexample: the claim predicts that target `C++` does NOT
match the corpus fragment `C+++Lib`, but the generated pattern
`\bC\+\+(?!\w)` matches at offset 0 because the following character `+` is
not a word character, so `C++` lands in the matched list and the missing
list is empty. -/
theorem c4_counterexample :
    extractMatches ["C+++Lib".data] ["C++".data] = (["C++".data], []) ∧
    (extractMatches ["C+++Lib".data] ["C++".data]).2 ≠ ["C++".data] := by
  decide

/-- Claim C4 (corrected): the phrase matcher applied to target `C++`
reports a match against the fragment `C+++Lib` (the trailing negative
lookahead only rejects a following word character, and `+` is not one), so
`C++` lands in the matched list for corpus `["C+++Lib"]`; it does not match
inside `C++Lib` (followed by a word character), and it does match
`"Skilled in C++, Java."`. -/
theorem c4_cpp_boundary :
    extractMatches ["C+++Lib".data] ["C++".data] = (["C++".data], []) ∧
    extractMatches ["C++Lib".data] ["C++".data] = ([], ["C++".data]) ∧
    extractMatches ["Skilled in C++, Java.".data] ["C++".data] = (["C++".data], []) := by
  decide

/-! ## C5 — the experience score formula -/

/-- Claim C5 counterexample: for `total_years = 1` and JD range
`{max: -1}` the claim's formula `round(100*max/y)` yields `-100`, but the
code clamps the ratio into `[0, 100]` before rounding and returns 0. -/
theorem c5_counterexample :
    computeExperienceScore 1 ⟨none, some (-1)⟩ = 0 ∧
    pyRound (pyDiv (100 * (-1)) 1) = -100 ∧ (0 : ℤ) ≠ -100 := by
  decide

/-- Claim C5 (corrected): for `y ≥ 0`, if `min` is present (regardless of
`max`) the result is 100 when `y ≥ min` and `round` of the `[0,100]`-clamp
of `100*y/min` otherwise (the `min ≤ 0` sub-case returns 0 but is
unreachable when `y ≥ 0`); if only `max` is present the result is 100 when
`y ≤ max` and `round` of the `[0,100]`-clamp of `100*max/y` otherwise; if
neither bound is present the result is 0.  In particular `y = 3.0` with
`{min:3, max:8}` gives 100 and `y = 1.5` gives 50. -/
theorem c5_experience_score (y : ℚ) (r : ExpRange) (hy : 0 ≤ y) :
    (r.min = none → r.max = none → computeExperienceScore y r = 0) ∧
    (∀ m, r.min = some m →
      (m ≤ y → computeExperienceScore y r = 100) ∧
      (y < m → computeExperienceScore y r =
        pyRound (max 0 (min 100 (pyDiv y m * 100))))) ∧
    (∀ mx, r.min = none → r.max = some mx →
      (y ≤ mx → computeExperienceScore y r = 100) ∧
      (mx < y → computeExperienceScore y r =
        pyRound (max 0 (min 100 (pyDiv mx y * 100))))) ∧
    computeExperienceScore 3 ⟨some 3, some 8⟩ = 100 ∧
    computeExperienceScore (mkRat 3 2) ⟨some 3, some 8⟩ = 50 := by
  refine ⟨?_, ?_, ?_, by decide, by decide⟩
  · intro h1 h2
    simp [computeExperienceScore, h1, h2]
  · intro m hm
    constructor
    · intro hle
      cases r with
      | mk rmin rmax =>
          cases hm
          simp only [computeExperienceScore]
          rw [if_pos hle]
    · intro hlt
      cases r with
      | mk rmin rmax =>
          cases hm
          simp only [computeExperienceScore]
          rw [if_neg (by exact not_le.mpr hlt), if_neg (by linarith)]
  · intro mx h1 hmx
    constructor
    · intro hle
      cases r with
      | mk rmin rmax =>
          cases h1; cases hmx
          simp only [computeExperienceScore]
          rw [if_pos hle]
    · intro hlt
      cases r with
      | mk rmin rmax =>
          cases h1; cases hmx
          simp only [computeExperienceScore]
          rw [if_neg (by exact not_le.mpr hlt)]

/-- Witness for C5 at `y = 1.5`, range `{min:3, max:8}`: the hypotheses
hold and the else-branch formula evaluates to 50. -/
theorem c5_witness :
    (0 : ℚ) ≤ mkRat 3 2 ∧ (mkRat 3 2 : ℚ) < 3 ∧
    computeExperienceScore (mkRat 3 2) ⟨some 3, some 8⟩ =
      pyRound (max 0 (min 100 (pyDiv (mkRat 3 2) 3 * 100))) := by
  refine ⟨by decide, by decide, ?_⟩
  exact ((c5_experience_score (mkRat 3 2) ⟨some 3, some 8⟩ (by decide)).2.1
    3 rfl).2 (by decide)

/-! ## C8 — graceful degradation without the embedding model -/

/-- With no model, `_semantic_check_missing` finds nothing and returns the
missing targets unchanged. -/
theorem semanticCheckMissing_none (sources targets : List Str) (thr : ℚ) :
    semanticCheckMissing none sources targets thr = ([], targets) := by
  unfold semanticCheckMissing
  split <;> rfl

/-- Claim C8 (confirmed): when the sentence-embedding model is unavailable
`_semantic_check_missing` returns `([], missing_targets)` for every input
(no exception is possible: the model is a total function), and therefore a
hybrid category block computes its score, matched list and missing list
from phrase matching alone. -/
theorem c8_semantic_unavailable :
    (∀ sources targets thr,
      semanticCheckMissing none sources targets thr = ([], targets)) ∧
    (∀ corpus targets thr, targets.length ≠ 0 →
      hybridCategory none corpus targets thr =
        (pyRound (pyDiv (100 * (extractMatches corpus targets).1.length : ℚ)
            (targets.length : ℚ)),
          (extractMatches corpus targets).1, (extractMatches corpus targets).2)) := by
  refine ⟨semanticCheckMissing_none, ?_⟩
  intro corpus targets thr hne
  unfold hybridCategory
  rw [if_neg hne]
  by_cases h : (extractMatches corpus targets).2.isEmpty = true
  · have h2 : (extractMatches corpus targets).2 = [] := List.isEmpty_iff.mp h
    simp [h2]
  · simp [h, semanticCheckMissing_none]

/-- Witness for C8's second part: with one target and one corpus fragment,
the degraded hybrid block equals its phrase-matching-only value. -/
theorem c8_witness :
    (["Python".data] : List Str).length ≠ 0 ∧
    hybridCategory none ["I know Python".data] ["Python".data] (mkRat 9 20) =
      (pyRound (pyDiv (100 * (extractMatches ["I know Python".data] ["Python".data]).1.length : ℚ)
          (([("Python".data : Str)]).length : ℚ)),
        (extractMatches ["I know Python".data] ["Python".data]).1,
        (extractMatches ["I know Python".data] ["Python".data]).2) :=
  ⟨by decide, c8_semantic_unavailable.2 ["I know Python".data] ["Python".data]
    (mkRat 9 20) (by decide)⟩

/-! ## C10 — salary candidate-value selection -/

/-- Claim C10 counterexample: with an explicit expected CTC of 0 and a
current CTC of 0, the claim says the candidate value is absent and the
salary score 0; in the code `0 or 0` evaluates to `0`, which is not
`None`, so the `<3` bucket matches and scores 50. -/
theorem c10_counterexample :
    salaryScoreOf [("<3".data, 50)] ⟨some 0, some 0⟩ = 50 ∧ (50 : ℤ) ≠ 0 := by
  decide

/-- Claim C10 (corrected): the candidate value is `expected_ctc_lpa` only
when that field is truthy; a null or zero expected CTC falls back to
`current_ctc_lpa`.  When the fallback is null the candidate value is
absent and the score is 0, but when the fallback is exactly 0 the
candidate value is the number 0 and it IS scored against the criteria
buckets. -/
theorem c10_salary_selection (criteria : List (Str × ℚ)) (s : SalaryBlock) :
    (truthyQ s.expected_ctc_lpa = true →
      salaryScoreOf criteria s = parseSalaryCriteriaAndScore criteria s.expected_ctc_lpa) ∧
    (truthyQ s.expected_ctc_lpa = false →
      salaryScoreOf criteria s = parseSalaryCriteriaAndScore criteria s.current_ctc_lpa) ∧
    (truthyQ s.expected_ctc_lpa = false → s.current_ctc_lpa = none →
      salaryScoreOf criteria s = 0) ∧
    (truthyQ s.expected_ctc_lpa = false → s.current_ctc_lpa = some 0 →
      salaryScoreOf criteria s = salaryLoop criteria 0) := by
  refine ⟨?_, ?_, ?_, ?_⟩
  · intro h
    unfold salaryScoreOf pyOrQ
    rw [h]
    rfl
  · intro h
    unfold salaryScoreOf pyOrQ
    rw [h]
    rfl
  · intro h hcur
    unfold salaryScoreOf pyOrQ
    rw [h, hcur]
    rfl
  · intro h hcur
    unfold salaryScoreOf pyOrQ
    rw [h, hcur]
    rfl

/-- Witness for C10: expected CTC 0 with current CTC 8 falls back to the
current CTC, and with no current CTC the score is 0. -/
theorem c10_witness :
    truthyQ (some 0) = false ∧
    salaryScoreOf [("5-8".data, 70)] ⟨some 0, some 8⟩ =
      parseSalaryCriteriaAndScore [("5-8".data, 70)] (some 8) ∧
    salaryScoreOf [("5-8".data, 70)] ⟨some 0, none⟩ = 0 :=
  ⟨by decide,
   (c10_salary_selection [("5-8".data, 70)] ⟨some 0, some 8⟩).2.1 (by decide),
   (c10_salary_selection [("5-8".data, 70)] ⟨some 0, none⟩).2.2.1 (by decide) rfl⟩

/-! ## C6 — the interval-merging timeline calculator -/

/-- The source's merge loop, started on `cur`, equals the specification's
merge of the list headed by `cur`. -/
theorem mergeAux_eq_specMerge (l : List (ℤ × ℤ)) : ∀ cs ce,
    mergeAux (cs, ce) l = specMerge ((cs, ce) :: l) := by
  induction l with
  | nil => intro cs ce; simp [mergeAux, specMerge]
  | cons hd tl ih =>
      intro cs ce
      obtain ⟨ns, ne⟩ := hd
      simp only [mergeAux, specMerge]
      by_cases hlt : ns < ce
      · rw [if_pos hlt, if_pos hlt, ih]
      · rw [if_neg hlt, if_neg hlt, ih]

/-- Inserting into a sorted list never yields the empty list. -/
theorem insertByStart_ne_nil (p : ℤ × ℤ) (l : List (ℤ × ℤ)) :
    insertByStart p l ≠ [] := by
  cases l with
  | nil => simp [insertByStart]
  | cons q rest =>
      simp only [insertByStart]
      split <;> simp

/-- The insertion sort returns the empty list only on the empty list. -/
theorem sortIntervals_eq_nil {l : List (ℤ × ℤ)} (h : sortIntervals l = []) :
    l = [] := by
  cases l with
  | nil => rfl
  | cons p rest => exact absurd h (insertByStart_ne_nil p (sortIntervals rest))

/-- Claim C6 (confirmed): with no job-title filter the timeline calculator
computes exactly the §4.3 specification value — sort the surviving
intervals by start, merge any interval whose start falls strictly before
the current merged end, sum the merged lengths in days, divide by 365.25
and round to 2 decimals, falling back to the sum of the declared `years`
fields (or 0.0) when no interval survives.  The overlapping example
(2019-01..2020-06) and (2020-03..2021-01) totals the merged span 2.0
years, not the naive per-entry sum 2.25. -/
theorem c6_timeline_merge :
    (∀ model exps,
      calcExperienceFromTimeline model none exps = specTimelineYears exps) ∧
    calcExperienceFromTimeline none none
      [⟨[], [], some ⟨2019, 1, 1⟩, some ⟨2020, 6, 1⟩, none⟩,
       ⟨[], [], some ⟨2020, 3, 1⟩, some ⟨2021, 1, 1⟩, none⟩] = 2 ∧
    round2 (pyDiv ((517 + 306 : ℤ) : ℚ) daysPerYear) = mkRat 225 100 ∧
    (2 : ℚ) ≠ mkRat 225 100 ∧
    (∀ exps, survivingIntervals exps = [] →
      calcExperienceFromTimeline none none exps = declaredYearsSum exps) := by
  have hrefine : ∀ (model : Option SemModel) exps,
      calcExperienceFromTimeline model none exps = specTimelineYears exps := by
    intro model exps
    have hkeep : exps.filter (timelineKeep model none) = exps :=
      List.filter_eq_self.mpr fun a _ => rfl
    unfold calcExperienceFromTimeline specTimelineYears
    rw [hkeep]
    by_cases hex : exps.isEmpty = true
    · rw [if_pos hex, if_pos hex]
    · rw [if_neg hex, if_neg hex]
      rcases hs : sortIntervals (survivingIntervals exps) with _ | ⟨⟨ps, pe⟩, rest⟩
      · have hnil : survivingIntervals exps = [] := sortIntervals_eq_nil hs
        simp [hnil, sortIntervals]
      · have hne : ¬(survivingIntervals exps).isEmpty = true := by
          intro hcontra
          rw [List.isEmpty_iff] at hcontra
          rw [hcontra] at hs
          exact absurd hs.symm (by simp [sortIntervals])
        rw [if_neg hne]
        simp only [hs]
        rw [mergeAux_eq_specMerge]
  refine ⟨hrefine, by decide, by decide, by decide, ?_⟩
  intro exps hsurv
  have h := hrefine none exps
  unfold specTimelineYears at h
  by_cases hex : exps.isEmpty = true
  · rw [if_pos hex] at h
    rw [h, List.isEmpty_iff.mp hex]
    rfl
  · rw [if_neg hex, hsurv] at h
    simpa using h

/-- Witness for C6's fallback conjunct: an entry whose dates fail to parse
falls back to its declared years. -/
theorem c6_witness :
    survivingIntervals [⟨[], [], none, some ⟨2020, 6, 1⟩, some 3⟩] = [] ∧
    calcExperienceFromTimeline none none
        [⟨[], [], none, some ⟨2020, 6, 1⟩, some 3⟩] =
      declaredYearsSum [⟨[], [], none, some ⟨2020, 6, 1⟩, some 3⟩] :=
  ⟨by decide, c6_timeline_merge.2.2.2.2 _ (by decide)⟩

/-! ## C7 — fail-open rule evaluation -/

/-- A rule whose condition raises is a no-op step. -/
theorem genericStep_cond_fault {r : GenRule} {res : ResumeFacts} {e : Str}
    (hc : evalCondition r.condition res = .error e) (m : ScoreMap) :
    genericStep r m res = (m, []) := by
  unfold genericStep genericTryRule
  rw [hc]

/-- A rule whose action raises (after its condition held) is a no-op
step. -/
theorem genericStep_action_fault {r : GenRule} {res : ResumeFacts} {e : Str}
    {m : ScoreMap} (hc : evalCondition r.condition res = .ok true)
    (ha : applyOperation r.action.operation
      (mapGet m r.action.target (.num 0)) r.action.value = .error e) :
    genericStep r m res = (m, []) := by
  unfold genericStep genericTryRule
  rw [hc]
  dsimp only
  rw [ha]

/-- The rule chain splits over list append. -/
theorem genericApplyRules_append (xs ys : List GenRule) (m : ScoreMap)
    (res : ResumeFacts) :
    genericApplyRules (xs ++ ys) m res =
      ((genericApplyRules ys (genericApplyRules xs m res).1 res).1,
        (genericApplyRules xs m res).2 ++
          (genericApplyRules ys (genericApplyRules xs m res).1 res).2) := by
  induction xs generalizing m with
  | nil => simp [genericApplyRules]
  | cons r rest ih =>
      simp only [List.cons_append, genericApplyRules, List.append_eq]
      rw [ih]
      simp [List.append_assoc]

/-- A no-op step at the head of the chain disappears. -/
theorem genericApplyRules_skip {r : GenRule} {res : ResumeFacts}
    {m : ScoreMap} (hstep : genericStep r m res = (m, []))
    (post : List GenRule) :
    genericApplyRules (r :: post) m res = genericApplyRules post m res := by
  simp only [genericApplyRules, hstep, List.nil_append]

/-- `apply_guardrails` depends on the rule list only through the generic
chain. -/
theorem applyGuardrails_congr_rules {rules1 rules2 : List GenRule}
    {res : ResumeFacts}
    (hrules : ∀ m', genericApplyRules rules1 m' res = genericApplyRules rules2 m' res)
    (m : ScoreMap) :
    applyGuardrails rules1 m res = applyGuardrails rules2 m res := by
  unfold applyGuardrails
  rcases h1 : skillsRuleApply m res with e | a1
  · rfl
  · dsimp only
    rcases h2 : experienceRuleApply a1.1 res with e | a2
    · rfl
    · dsimp only
      rcases h3 : projectsRuleApply a2.1 res with e | a3
      · rfl
      · dsimp only
        rcases h4 : certificationsRuleApply a3.1 res with e | a4
        · rfl
        · dsimp only
          rw [hrules a4.1]

/-- Claim C7 (confirmed): a generic rule whose condition or action raises
is skipped — the remaining rules still run on the unchanged map, no note
is appended for the faulting rule, no exception escapes the engine, and
the score validator (which reruns the aggregator afterwards) computes the
same result as if the faulting rule were absent. -/
theorem c7_fail_open :
    (∀ (pre post : List GenRule) (r : GenRule) (m : ScoreMap)
        (res : ResumeFacts) (e : Str),
      evalCondition r.condition res = .error e →
      genericApplyRules (pre ++ r :: post) m res =
        genericApplyRules (pre ++ post) m res) ∧
    (∀ (pre post : List GenRule) (r : GenRule) (m : ScoreMap)
        (res : ResumeFacts) (e : Str),
      evalCondition r.condition res = .ok true →
      applyOperation r.action.operation
          (mapGet (genericApplyRules pre m res).1 r.action.target (.num 0))
          r.action.value = .error e →
      genericApplyRules (pre ++ r :: post) m res =
        genericApplyRules (pre ++ post) m res) ∧
    (∀ (raw : ScoreMap) (w : ScoringWeights) (res : ResumeFacts)
        (pre post : List GenRule) (r : GenRule) (e : Str),
      evalCondition r.condition res = .error e →
      validateAiScoreOutput raw w (some res) (pre ++ r :: post) =
        validateAiScoreOutput raw w (some res) (pre ++ post)) := by
  have hskip : ∀ (pre post : List GenRule) (r : GenRule) (m : ScoreMap)
      (res : ResumeFacts),
      genericStep r (genericApplyRules pre m res).1 res =
        ((genericApplyRules pre m res).1, []) →
      genericApplyRules (pre ++ r :: post) m res =
        genericApplyRules (pre ++ post) m res := by
    intro pre post r m res hstep
    rw [genericApplyRules_append pre (r :: post),
      genericApplyRules_append pre post,
      genericApplyRules_skip hstep]
  refine ⟨?_, ?_, ?_⟩
  · intro pre post r m res e hc
    exact hskip pre post r m res (genericStep_cond_fault hc _)
  · intro pre post r m res e hc ha
    exact hskip pre post r m res (genericStep_action_fault hc ha)
  · intro raw w res pre post r e hc
    have hg : ∀ m', genericApplyRules (pre ++ r :: post) m' res =
        genericApplyRules (pre ++ post) m' res := by
      intro m'
      rw [genericApplyRules_append pre (r :: post),
        genericApplyRules_append pre post,
        genericApplyRules_skip (genericStep_cond_fault hc _)]
    unfold validateAiScoreOutput
    dsimp only
    rw [applyGuardrails_congr_rules hg]

/-- Witness for C7: the summary rule's condition raises `AttributeError`
on a resume without the extra `summary` field, and the engine behaves as
if the rule were absent. -/
theorem c7_witness :
    evalCondition summaryRule.condition resNoSummary =
      .error "AttributeError".data ∧
    genericApplyRules ([] ++ summaryRule :: []) mFix resNoSummary =
      genericApplyRules ([] ++ []) mFix resNoSummary ∧
    validateAiScoreOutput rawFix {} (some resNoSummary)
        ([] ++ summaryRule :: []) =
      validateAiScoreOutput rawFix {} (some resNoSummary) ([] ++ []) :=
  ⟨by decide,
   c7_fail_open.1 [] [] summaryRule mFix resNoSummary "AttributeError".data
     (by decide),
   c7_fail_open.2.2 rawFix {} resNoSummary [] [] summaryRule
     "AttributeError".data (by decide)⟩

end

/-! ## C9 — corpus-order dependence of the phrase matcher -/

/-- ASCII case folding maps no character other than the space to a space. -/
theorem toLower_eq_space {c : Char} (h : c.toLower = ' ') : c = ' ' := by
  unfold Char.toLower at h
  dsimp only at h
  split at h
  · next hcond =>
      exfalso
      have h2 := congrArg Char.toNat h
      have h3 : (Char.ofNat (c.toNat + 32)).toNat = c.toNat + 32 := by
        obtain ⟨ha, hb⟩ := hcond
        set m := c.toNat with hm
        interval_cases m <;> decide
      rw [h3] at h2
      have h4 : (' ' : Char).toNat = 32 := by decide
      omega
  · exact h

/-- ASCII case folding maps no character other than the newline to a
newline. -/
theorem toLower_eq_newline {c : Char} (h : c.toLower = '\n') : c = '\n' := by
  unfold Char.toLower at h
  dsimp only at h
  split at h
  · next hcond =>
      exfalso
      have h2 := congrArg Char.toNat h
      have h3 : (Char.ofNat (c.toNat + 32)).toNat = c.toNat + 32 := by
        obtain ⟨ha, hb⟩ := hcond
        set m := c.toNat with hm
        interval_cases m <;> decide
      rw [h3] at h2
      have h4 : ('\n' : Char).toNat = 10 := by decide
      omega
  · exact h

/-- A character case-insensitively equal to a space is a space. -/
theorem lowEq_space_eq {c : Char} (h : lowEq c ' ' = true) : c = ' ' := by
  unfold lowEq at h
  have h2 : c.toLower = (' ' : Char).toLower := of_decide_eq_true h
  have h3 : (' ' : Char).toLower = ' ' := by decide
  exact toLower_eq_space (h3 ▸ h2)

/-- A character case-insensitively equal to a newline is a newline. -/
theorem lowEq_newline_eq {c : Char} (h : lowEq c '\n' = true) : c = '\n' := by
  unfold lowEq at h
  have h2 : c.toLower = ('\n' : Char).toLower := of_decide_eq_true h
  have h3 : ('\n' : Char).toLower = '\n' := by decide
  exact toLower_eq_newline (h3 ▸ h2)

/-- A non-whitespace character never case-folds onto the space. -/
theorem lowEq_space_false {c : Char} (h : isPySpace c = false) :
    lowEq c ' ' = false := by
  cases hl : lowEq c ' '
  · rfl
  · rw [lowEq_space_eq hl] at h
    exact absurd h (by decide)

/-- A character other than the newline never case-folds onto it. -/
theorem lowEq_newline_false {c : Char} (h : c ≠ '\n') :
    lowEq c '\n' = false := by
  cases hl : lowEq c '\n'
  · rfl
  · exact absurd (lowEq_newline_eq hl) h

/-- A literal occurrence fits inside the searched string. -/
theorem litAt_bound {s lit : Str} {i : ℕ} (h : litAt s i lit = true) :
    i + lit.length ≤ s.length := by
  unfold litAt at h
  rw [Bool.and_eq_true] at h
  exact of_decide_eq_true h.1

/-- Each character of a literal occurrence folds onto the corresponding
searched character. -/
theorem litAt_char {s lit : Str} {i : ℕ} (h : litAt s i lit = true)
    {j : ℕ} (hj : j < lit.length) :
    lowEq (lit.getD j ' ') (s.getD (i + j) ' ') = true := by
  unfold litAt at h
  rw [Bool.and_eq_true] at h
  have h2 := h.2
  rw [List.all_eq_true] at h2
  exact h2 j (List.mem_range.mpr hj)

/-- The three conjuncts of a pattern match. -/
theorem patAt_parts {s lit : Str} {i : ℕ} (h : patAt s i lit = true) :
    litAt s i lit = true ∧
      (!isWordChar (lit.getD 0 ' ') || prevFree s i) = true ∧
      nextFree s (i + lit.length) = true := by
  unfold patAt at h
  rw [Bool.and_eq_true, Bool.and_eq_true] at h
  exact ⟨h.1.1, h.1.2, h.2⟩

/-- Existential reading of `re.search`. -/
theorem searchLit_iff {s lit : Str} :
    searchLit s lit = true ↔ ∃ i, i < s.length + 1 ∧ patAt s i lit = true := by
  unfold searchLit
  simp only [List.any_eq_true, List.mem_range]

/-- Pointwise-equal predicates agree under `all` over a range. -/
theorem allRangeCongr {n : ℕ} {f g : ℕ → Bool} (h : ∀ j, j < n → f j = g j) :
    (List.range n).all f = (List.range n).all g := by
  rw [Bool.eq_iff_iff, List.all_eq_true, List.all_eq_true]
  constructor
  · intro hh j hj
    rw [← h j (List.mem_range.mp hj)]
    exact hh j hj
  · intro hh j hj
    rw [h j (List.mem_range.mp hj)]
    exact hh j hj

/-- The first separator character after the left fragment. -/
theorem getD_sep_zero (a b : Str) :
    (a ++ (sepStr ++ b)).getD a.length ' ' = ' ' := by
  rw [List.getD_append_right _ _ _ _ (le_refl a.length), Nat.sub_self]
  rfl

/-- The newline in the middle of the separator. -/
theorem getD_sep_one (a b : Str) :
    (a ++ (sepStr ++ b)).getD (a.length + 1) ' ' = '\n' := by
  rw [List.getD_append_right _ _ _ _ (by omega : a.length ≤ a.length + 1),
    show a.length + 1 - a.length = 1 from by omega]
  rfl

/-- The closing separator space. -/
theorem getD_sep_two (a b : Str) :
    (a ++ (sepStr ++ b)).getD (a.length + 2) ' ' = ' ' := by
  rw [List.getD_append_right _ _ _ _ (by omega : a.length ≤ a.length + 2),
    show a.length + 2 - a.length = 2 from by omega]
  rfl

/-- Reading past the separator lands in the right fragment. -/
theorem getD_sep_shift (a b : Str) (i j : ℕ) :
    (a ++ (sepStr ++ b)).getD (a.length + 3 + i + j) ' ' = b.getD (i + j) ' ' := by
  rw [List.getD_append_right _ _ _ _ (by omega : a.length ≤ a.length + 3 + i + j),
    show a.length + 3 + i + j - a.length = i + j + 1 + 1 + 1 from by omega]
  show (' ' :: '\n' :: ' ' :: b).getD (i + j + 1 + 1 + 1) ' ' = b.getD (i + j) ' '
  rw [List.getD_cons_succ, List.getD_cons_succ, List.getD_cons_succ]

/-- The combined length of a separator-joined pair. -/
theorem length_append_sep (a b : Str) :
    (a ++ (sepStr ++ b)).length = a.length + 3 + b.length := by
  rw [List.length_append, List.length_append]
  have h3 : sepStr.length = 3 := rfl
  omega

/-- A literal occurrence inside the left fragment reads the same there. -/
theorem litAt_left_sep {a b lit : Str} {i : ℕ} (hin : i + lit.length ≤ a.length) :
    litAt (a ++ (sepStr ++ b)) i lit = litAt a i lit := by
  unfold litAt
  have h1 : decide (i + lit.length ≤ (a ++ (sepStr ++ b)).length) = true := by
    rw [decide_eq_true_eq, length_append_sep]
    omega
  have h2 : decide (i + lit.length ≤ a.length) = true := by
    rw [decide_eq_true_eq]
    exact hin
  rw [h1, h2, Bool.true_and, Bool.true_and]
  apply allRangeCongr
  intro j hj
  rw [List.getD_append _ _ _ _ (by omega : i + j < a.length)]

/-- The word-boundary look-behind agrees between the combined string and
its left fragment. -/
theorem prevFree_left_sep {a b : Str} {i : ℕ} (hle : i ≤ a.length) :
    prevFree (a ++ (sepStr ++ b)) i = prevFree a i := by
  unfold prevFree
  rcases Nat.eq_zero_or_pos i with hi0 | hip
  · subst hi0
    rfl
  · rw [List.getD_append _ _ _ _ (by omega : i - 1 < a.length)]

/-- The trailing look-ahead agrees between the combined string and its
left fragment (the separator opens with a space). -/
theorem nextFree_left_sep {a b : Str} (n : ℕ) (hle : n ≤ a.length) :
    nextFree (a ++ (sepStr ++ b)) n = nextFree a n := by
  rcases eq_or_lt_of_le hle with he | hlt
  · subst he
    unfold nextFree
    rw [getD_sep_zero]
    have h2 : (!isWordChar ' ') = true := by decide
    rw [h2, Bool.or_true]
    have h3 : decide (a.length ≤ a.length) = true := decide_eq_true (le_refl a.length)
    rw [h3, Bool.true_or]
  · unfold nextFree
    rw [List.getD_append _ _ _ _ hlt]
    have d1 : decide ((a ++ (sepStr ++ b)).length ≤ n) = false := by
      rw [decide_eq_false_iff_not, length_append_sep]
      omega
    have d2 : decide (a.length ≤ n) = false := by
      rw [decide_eq_false_iff_not]
      omega
    rw [d1, d2]

/-- A pattern match inside the left fragment transfers both ways. -/
theorem patAt_left_sep {a b lit : Str} {i : ℕ} (hin : i + lit.length ≤ a.length) :
    patAt (a ++ (sepStr ++ b)) i lit = patAt a i lit := by
  unfold patAt
  rw [litAt_left_sep hin, prevFree_left_sep (by omega : i ≤ a.length),
    nextFree_left_sep _ hin]

/-- A literal occurrence inside the right fragment reads the same there. -/
theorem litAt_right_sep (a b lit : Str) (i : ℕ) :
    litAt (a ++ (sepStr ++ b)) (a.length + 3 + i) lit = litAt b i lit := by
  unfold litAt
  have hd : decide (a.length + 3 + i + lit.length ≤ (a ++ (sepStr ++ b)).length) =
      decide (i + lit.length ≤ b.length) := by
    rw [decide_eq_decide, length_append_sep]
    omega
  rw [hd]
  have hall : ((List.range lit.length).all fun j =>
      lowEq (lit.getD j ' ') ((a ++ (sepStr ++ b)).getD (a.length + 3 + i + j) ' ')) =
      ((List.range lit.length).all fun j =>
        lowEq (lit.getD j ' ') (b.getD (i + j) ' ')) := by
    apply allRangeCongr
    intro j hj
    rw [getD_sep_shift]
  rw [hall]

/-- The look-behind agrees between the combined string and its right
fragment (the separator closes with a space). -/
theorem prevFree_right_sep (a b : Str) (i : ℕ) :
    prevFree (a ++ (sepStr ++ b)) (a.length + 3 + i) = prevFree b i := by
  rcases Nat.eq_zero_or_pos i with h0 | hp
  · subst h0
    unfold prevFree
    rw [show a.length + 3 + 0 - 1 = a.length + 2 from by omega, getD_sep_two]
    have h2 : (!isWordChar ' ') = true := by decide
    rw [h2, Bool.or_true]
    have h3 : decide ((0 : ℕ) = 0) = true := by decide
    rw [h3, Bool.true_or]
  · unfold prevFree
    have hd1 : decide (a.length + 3 + i = 0) = false := by
      rw [decide_eq_false_iff_not]
      omega
    have hd2 : decide (i = 0) = false := by
      rw [decide_eq_false_iff_not]
      omega
    rw [hd1, hd2,
      show a.length + 3 + i - 1 = a.length + 3 + (i - 1) + 0 from by omega,
      getD_sep_shift, show i - 1 + 0 = i - 1 from rfl]

/-- The look-ahead agrees between the combined string and its right
fragment. -/
theorem nextFree_right_sep (a b : Str) (i m : ℕ) :
    nextFree (a ++ (sepStr ++ b)) (a.length + 3 + i + m) = nextFree b (i + m) := by
  unfold nextFree
  have hd : decide ((a ++ (sepStr ++ b)).length ≤ a.length + 3 + i + m) =
      decide (b.length ≤ i + m) := by
    rw [decide_eq_decide, length_append_sep]
    omega
  rw [hd, getD_sep_shift]

/-- A pattern match inside the right fragment transfers both ways. -/
theorem patAt_right_sep (a b lit : Str) (i : ℕ) :
    patAt (a ++ (sepStr ++ b)) (a.length + 3 + i) lit = patAt b i lit := by
  unfold patAt
  rw [litAt_right_sep, prevFree_right_sep, nextFree_right_sep]

/-- Searching a separator-joined pair for a nonempty literal that neither
starts nor ends with a space and contains no newline is exactly searching
the two fragments: the separator can never take part in a match. -/
theorem searchLit_append_sep {a b lit : Str} (hne : lit ≠ [])
    (hhead : lowEq (lit.getD 0 ' ') ' ' = false)
    (hlast : lowEq (lit.getD (lit.length - 1) ' ') ' ' = false)
    (hnl : ∀ j, j < lit.length → lowEq (lit.getD j ' ') '\n' = false) :
    searchLit (a ++ (sepStr ++ b)) lit = (searchLit a lit || searchLit b lit) := by
  have hlp : 0 < lit.length := List.length_pos.mpr hne
  have hlen := length_append_sep a b
  rw [Bool.eq_iff_iff, Bool.or_eq_true, searchLit_iff, searchLit_iff, searchLit_iff]
  constructor
  · rintro ⟨i, hi, hp⟩
    obtain ⟨hl, hmid, hnx⟩ := patAt_parts hp
    have hbound := litAt_bound hl
    rw [hlen] at hbound
    have hsplit : i + lit.length ≤ a.length ∨ a.length + 3 ≤ i := by
      by_contra hcon
      push_neg at hcon
      obtain ⟨h1, h2⟩ := hcon
      have hcases : i ≤ a.length ∨ i = a.length + 1 ∨ i = a.length + 2 := by omega
      rcases hcases with hc | hc | hc
      · have hj : a.length - i < lit.length := by omega
        have hch := litAt_char hl hj
        rw [show i + (a.length - i) = a.length from by omega, getD_sep_zero] at hch
        by_cases hje : a.length - i = lit.length - 1
        · rw [hje] at hch
          rw [hch] at hlast
          exact Bool.noConfusion hlast
        · have hj2 : a.length - i + 1 < lit.length := by omega
          have hch2 := litAt_char hl hj2
          rw [show i + (a.length - i + 1) = a.length + 1 from by omega,
            getD_sep_one] at hch2
          rw [hnl _ hj2] at hch2
          exact Bool.noConfusion hch2
      · have hch := litAt_char hl hlp
        rw [hc, show a.length + 1 + 0 = a.length + 1 from by omega,
          getD_sep_one] at hch
        rw [hnl 0 hlp] at hch
        exact Bool.noConfusion hch
      · have hch := litAt_char hl hlp
        rw [hc, show a.length + 2 + 0 = a.length + 2 from by omega,
          getD_sep_two] at hch
        rw [hch] at hhead
        exact Bool.noConfusion hhead
    rcases hsplit with hL | hR
    · left
      refine ⟨i, by omega, ?_⟩
      rw [← patAt_left_sep hL]
      exact hp
    · right
      refine ⟨i - (a.length + 3), by omega, ?_⟩
      rw [← patAt_right_sep a b lit (i - (a.length + 3)),
        show a.length + 3 + (i - (a.length + 3)) = i from by omega]
      exact hp
  · rintro (⟨i, hi, hp⟩ | ⟨i, hi, hp⟩)
    · have hb := litAt_bound (patAt_parts hp).1
      refine ⟨i, by omega, ?_⟩
      rw [patAt_left_sep hb]
      exact hp
    · have hb := litAt_bound (patAt_parts hp).1
      refine ⟨a.length + 3 + i, by omega, ?_⟩
      rw [patAt_right_sep]
      exact hp

/-- Searching the joined corpus for a well-shaped literal is searching the
fragments one by one. -/
theorem searchLit_joinSep (lit : Str) (hne : lit ≠ [])
    (hhead : lowEq (lit.getD 0 ' ') ' ' = false)
    (hlast : lowEq (lit.getD (lit.length - 1) ' ') ' ' = false)
    (hnl : ∀ j, j < lit.length → lowEq (lit.getD j ' ') '\n' = false) :
    ∀ fs : List Str, searchLit (joinSep fs) lit = fs.any fun f => searchLit f lit := by
  have hlp : 0 < lit.length := List.length_pos.mpr hne
  intro fs
  induction fs with
  | nil =>
      show searchLit [] lit = false
      cases hs : searchLit [] lit
      · rfl
      · obtain ⟨i, hi, hp⟩ := searchLit_iff.mp hs
        have hb := litAt_bound (patAt_parts hp).1
        exfalso
        have h0 : ([] : Str).length = 0 := rfl
        omega
  | cons f rest ih =>
      cases rest with
      | nil =>
          show searchLit f lit = (searchLit f lit || List.any [] fun g => searchLit g lit)
          rw [show (List.any [] fun g => searchLit g lit) = false from rfl, Bool.or_false]
      | cons f2 rest2 =>
          rw [show joinSep (f :: f2 :: rest2) = f ++ (sepStr ++ joinSep (f2 :: rest2)) from by
            rw [← List.append_assoc]
            rfl]
          rw [searchLit_append_sep hne hhead hlast hnl, ih]
          rfl

/-- `any` is invariant under permutation of the list. -/
theorem anyEqOfPerm {α : Type} {l1 l2 : List α} (h : l1.Perm l2) (f : α → Bool) :
    l1.any f = l2.any f := by
  induction h with
  | nil => rfl
  | cons x h ih => simp [List.any_cons, ih]
  | swap x y l => simp [List.any_cons, Bool.or_left_comm]
  | trans h1 h2 ih1 ih2 => exact ih1.trans ih2

/-- The head of a list as a default lookup. -/
theorem getD_zero_head (l : Str) (d : Char) : l.getD 0 d = l.head?.getD d := by
  cases l <;> rfl

/-- The last element of a nonempty list as a default lookup. -/
theorem getD_last (l : Str) (d : Char) (h : l ≠ []) :
    l.getD (l.length - 1) d = l.getLast?.getD d := by
  induction l with
  | nil => exact absurd rfl h
  | cons c cs ih =>
      cases cs with
      | nil => rfl
      | cons c2 cs2 =>
          rw [List.getLast?_cons_cons,
            show (c :: c2 :: cs2 : Str).length - 1 = cs2.length + 1 from by
              simp [List.length_cons],
            List.getD_cons_succ]
          exact ih (List.cons_ne_nil c2 cs2)

/-- The first survivor of `dropWhile` fails the predicate. -/
theorem dropWhile_getD_zero (p : Char → Bool) (l : Str) (h : l.dropWhile p ≠ []) :
    p ((l.dropWhile p).getD 0 ' ') = false := by
  induction l with
  | nil => exact absurd rfl h
  | cons c cs ih =>
      rw [List.dropWhile_cons] at h ⊢
      by_cases hc : p c = true
      · rw [if_pos hc] at h ⊢
        exact ih h
      · rw [if_neg hc] at h ⊢
        rw [List.getD_cons_zero]
        exact Bool.eq_false_iff.mpr hc

/-- A nonempty stripped string never starts with whitespace. -/
theorem stripStr_head_not_space {t : Str} (h : stripStr t ≠ []) :
    isPySpace ((stripStr t).getD 0 ' ') = false := by
  unfold stripStr at h ⊢
  set Y := t.dropWhile isPySpace with hY
  set X := Y.reverse.dropWhile isPySpace with hX
  have hXne : X ≠ [] := fun hx => h (by rw [hx]; rfl)
  rw [getD_zero_head, List.head?_reverse]
  have hsuf : List.dropWhile isPySpace Y.reverse <:+ Y.reverse :=
    List.dropWhile_suffix isPySpace
  rw [← hX] at hsuf
  obtain ⟨pre, hpre⟩ := hsuf
  have hgl : X.getLast? = Y.reverse.getLast? := by
    rw [← hpre]
    exact (List.getLast?_append_of_ne_nil pre hXne).symm
  rw [hgl, List.getLast?_reverse, ← getD_zero_head]
  apply dropWhile_getD_zero
  intro hy
  apply hXne
  rw [hX, show Y.reverse = [] from by rw [List.reverse_eq_nil_iff]; exact hy]
  rfl

/-- A nonempty stripped string never ends with whitespace. -/
theorem stripStr_last_not_space {t : Str} (h : stripStr t ≠ []) :
    isPySpace ((stripStr t).getD ((stripStr t).length - 1) ' ') = false := by
  unfold stripStr at h ⊢
  set X := (t.dropWhile isPySpace).reverse.dropWhile isPySpace with hX
  have hXne : X ≠ [] := fun hx => h (by rw [hx]; rfl)
  rw [getD_last _ _ h, List.getLast?_reverse, ← getD_zero_head]
  exact dropWhile_getD_zero _ _ hXne

/-- Fold congruence for pointwise-equal step functions. -/
theorem foldl_congr_fun {α β : Type} {f g : β → α → β} (l : List α) (b : β)
    (h : ∀ x ∈ l, ∀ acc, f acc x = g acc x) : l.foldl f b = l.foldl g b := by
  induction l generalizing b with
  | nil => rfl
  | cons x xs ih =>
      rw [List.foldl_cons, List.foldl_cons, h x (List.mem_cons_self x xs) b]
      exact ih _ fun y hy acc => h y (List.mem_cons_of_mem x hy) acc

/-- Claim C9 counterexample: the matcher is NOT corpus-order independent.
The target `"x \n y"` contains the join separator, so it matches the
joined corpus `["x", "y"]` but not its permutation `["y", "x"]` — the two
runs return different matched/missing sets. -/
theorem c9_counterexample :
    List.Perm ["y".data, "x".data] ["x".data, "y".data] ∧
    extractMatches ["x".data, "y".data] ["x \n y".data] =
      (["x \n y".data], []) ∧
    extractMatches ["y".data, "x".data] ["x \n y".data] =
      ([], ["x \n y".data]) := by
  decide

/-- Claim C9 (corrected): the phrase matcher is corpus-order independent
for every target whose stripped text contains no newline (in particular
every single-line skill/tool/technology phrase): permuting the corpus
fragments changes neither the matched nor the missing list.  Without the
newline restriction the claim fails, as the counterexample shows. -/
theorem c9_permutation (targets c1 c2 : List Str) (hp : List.Perm c1 c2)
    (hnl : ∀ t ∈ targets, ('\n' : Char) ∉ stripStr t) :
    extractMatches c1 targets = extractMatches c2 targets := by
  unfold extractMatches
  dsimp only
  apply foldl_congr_fun
  intro t ht acc
  dsimp only
  by_cases hemp : (stripStr t).isEmpty = true
  · rw [if_pos hemp, if_pos hemp]
  · have htc : stripStr t ≠ [] := fun hn => hemp (List.isEmpty_iff.mpr hn)
    have hhead : lowEq ((stripStr t).getD 0 ' ') ' ' = false :=
      lowEq_space_false (stripStr_head_not_space htc)
    have hlast :
        lowEq ((stripStr t).getD ((stripStr t).length - 1) ' ') ' ' = false :=
      lowEq_space_false (stripStr_last_not_space htc)
    have hnlf : ∀ j, j < (stripStr t).length →
        lowEq ((stripStr t).getD j ' ') '\n' = false := by
      intro j hj
      apply lowEq_newline_false
      intro hcontra
      apply hnl t ht
      rw [← hcontra, List.getD_eq_getElem _ _ hj]
      exact List.getElem_mem hj
    have hsearch : searchLit (srcCombined c1) (stripStr t) =
        searchLit (srcCombined c2) (stripStr t) := by
      rw [show srcCombined c1 = joinSep (List.filter (fun s => !s.isEmpty) c1) from rfl,
        show srcCombined c2 = joinSep (List.filter (fun s => !s.isEmpty) c2) from rfl,
        searchLit_joinSep _ htc hhead hlast hnlf,
        searchLit_joinSep _ htc hhead hlast hnlf]
      exact anyEqOfPerm (List.Perm.filter _ hp) _
    rw [if_neg hemp, if_neg hemp, hsearch]

/-- Witness for C9: a concrete two-fragment corpus, its permutation, and a
newline-free target, with the hypotheses discharged by evaluation. -/
theorem c9_witness :
    List.Perm ["ab".data, "c d".data] ["c d".data, "ab".data] ∧
    (∀ t ∈ [" ab ".data], ('\n' : Char) ∉ stripStr t) ∧
    extractMatches ["ab".data, "c d".data] [" ab ".data] =
      extractMatches ["c d".data, "ab".data] [" ab ".data] :=
  ⟨by decide, by decide,
    c9_permutation [" ab ".data] ["ab".data, "c d".data] ["c d".data, "ab".data]
      (by decide) (by decide)⟩

/-! ## C1 — the aggregator never reads the oracle's `final_score` -/

/-- Writing one key leaves optional lookups at other keys unchanged. -/
theorem mapGetOpt_set_ne (m : ScoreMap) {k k2 : Str} (v : PyVal) (h : k2 ≠ k) :
    mapGetOpt (mapSet m k v) k2 = mapGetOpt m k2 := by
  induction m with
  | nil =>
      simp only [mapSet, mapGetOpt]
      rw [if_neg (Ne.symm h)]
  | cons hd tl ih =>
      obtain ⟨k1, v1⟩ := hd
      by_cases hk1 : k1 = k
      · subst hk1
        simp only [mapSet, if_pos rfl, mapGetOpt]
        rw [if_neg (Ne.symm h), if_neg (Ne.symm h)]
      · by_cases hk2 : k1 = k2
        · simp only [mapSet, if_neg hk1, mapGetOpt, if_pos hk2]
        · simp only [mapSet, if_neg hk1, mapGetOpt, if_neg hk2]
          exact ih

/-- The coercion loop written out: twelve entries in `EXPECTED_KEYS`
order. -/
theorem coerceOut_explicit (raw : ScoreMap) :
    coerceOut raw =
      [(kFinal, .num ((clampAndInt ((mapGetOpt raw kFinal).getD .null) : ℤ) : ℚ)),
       (kSkills, .num ((clampAndInt ((mapGetOpt raw kSkills).getD .null) : ℤ) : ℚ)),
       (kExperience, .num ((clampAndInt ((mapGetOpt raw kExperience).getD .null) : ℤ) : ℚ)),
       (kRelevant, .num ((clampAndInt ((mapGetOpt raw kRelevant).getD .null) : ℤ) : ℚ)),
       (kProjects, .num ((clampAndInt ((mapGetOpt raw kProjects).getD .null) : ℤ) : ℚ)),
       (kCertificates, .num ((clampAndInt ((mapGetOpt raw kCertificates).getD .null) : ℤ) : ℚ)),
       (kTools, .num ((clampAndInt ((mapGetOpt raw kTools).getD .null) : ℤ) : ℚ)),
       (kTechnologies, .num ((clampAndInt ((mapGetOpt raw kTechnologies).getD .null) : ℤ) : ℚ)),
       (kQualification, .num ((clampAndInt ((mapGetOpt raw kQualification).getD .null) : ℤ) : ℚ)),
       (kResponsibilities, .num ((clampAndInt ((mapGetOpt raw kResponsibilities).getD .null) : ℤ) : ℚ)),
       (kSalary, .num ((clampAndInt ((mapGetOpt raw kSalary).getD .null) : ℤ) : ℚ)),
       (kNotes, .str ((strOfPyVal (mapGet raw kNotes (.str []))).take 240))] := rfl

/-- Coercing a map with an overwritten `final_score` agrees with the
original coercion at every other key. -/
theorem coerceOut_agreeOff (raw : ScoreMap) (v : PyVal) :
    AgreeOff (coerceOut (mapSet raw kFinal v)) (coerceOut raw) := by
  intro k hk d
  rw [coerceOut_explicit, coerceOut_explicit,
    mapGetOpt_set_ne raw v (show kSkills ≠ kFinal from by decide),
    mapGetOpt_set_ne raw v (show kExperience ≠ kFinal from by decide),
    mapGetOpt_set_ne raw v (show kRelevant ≠ kFinal from by decide),
    mapGetOpt_set_ne raw v (show kProjects ≠ kFinal from by decide),
    mapGetOpt_set_ne raw v (show kCertificates ≠ kFinal from by decide),
    mapGetOpt_set_ne raw v (show kTools ≠ kFinal from by decide),
    mapGetOpt_set_ne raw v (show kTechnologies ≠ kFinal from by decide),
    mapGetOpt_set_ne raw v (show kQualification ≠ kFinal from by decide),
    mapGetOpt_set_ne raw v (show kResponsibilities ≠ kFinal from by decide),
    mapGetOpt_set_ne raw v (show kSalary ≠ kFinal from by decide),
    mapGet_set_ne raw v (.str []) (show kNotes ≠ kFinal from by decide)]
  simp only [mapGet]
  rw [if_neg (Ne.symm hk), if_neg (Ne.symm hk)]

/-- The coerced `final_score` entry is numeric. -/
theorem coerceOut_final_num (raw : ScoreMap) :
    mapGet (coerceOut raw) kFinal (.num 0) =
      .num ((clampAndInt ((mapGetOpt raw kFinal).getD .null) : ℤ) : ℚ) := rfl

/-- The coerced `notes` entry is a string. -/
theorem coerceOut_notes_isStr (raw : ScoreMap) :
    isStrVal (mapGet (coerceOut raw) kNotes (.str [])) = true := rfl

/-- Agreement off the final key survives a common write at a common key. -/
theorem agreeOff_set_same {m1 m2 : ScoreMap} (h : AgreeOff m1 m2) (k : Str)
    (v : PyVal) : AgreeOff (mapSet m1 k v) (mapSet m2 k v) := by
  intro k2 hk2 d
  by_cases hkk : k2 = k
  · subst hkk
    rw [mapGet_set_self, mapGet_set_self]
  · rw [mapGet_set_ne _ _ _ hkk, mapGet_set_ne _ _ _ hkk]
    exact h k2 hk2 d

/-- The chain invariant survives a common write at a non-final key. -/
theorem invMaps_set_same {m1 m2 : ScoreMap} (h : InvMaps m1 m2) {k : Str}
    (hk : k ≠ kFinal) (v : PyVal) : InvMaps (mapSet m1 k v) (mapSet m2 k v) := by
  obtain ⟨hag, hrel⟩ := h
  refine ⟨agreeOff_set_same hag k v, ?_⟩
  rw [mapGet_set_ne _ _ _ (Ne.symm hk), mapGet_set_ne _ _ _ (Ne.symm hk)]
  exact hrel

/-- Two invariant-related runs of a built-in zeroing step either both
raise or both succeed with equal notes and related maps. -/
theorem zeroIfPositive_congr {k note : Str} {m1 m2 : ScoreMap}
    (hk : k ≠ kFinal) (hinv : InvMaps m1 m2) :
    (∃ e, zeroIfPositive k note m1 = .error e ∧
      zeroIfPositive k note m2 = .error e) ∨
    (∃ o1 o2, zeroIfPositive k note m1 = .ok o1 ∧
      zeroIfPositive k note m2 = .ok o2 ∧ o1.2 = o2.2 ∧ InvMaps o1.1 o2.1) := by
  obtain ⟨hag, hrel⟩ := hinv
  have hcur : mapGet m1 k (.num 0) = mapGet m2 k (.num 0) := hag k hk _
  rcases hgt : pyValGtZero (mapGet m2 k (.num 0)) with e | b
  · left
    refine ⟨e, ?_, ?_⟩
    · unfold zeroIfPositive
      rw [hcur, hgt]
    · unfold zeroIfPositive
      rw [hgt]
  · cases b
    · right
      refine ⟨(m1, []), (m2, []), ?_, ?_, rfl, ⟨hag, hrel⟩⟩
      · unfold zeroIfPositive
        rw [hcur, hgt]
      · unfold zeroIfPositive
        rw [hgt]
    · right
      refine ⟨(mapSet m1 k (.num 0), [note]), (mapSet m2 k (.num 0), [note]),
        ?_, ?_, rfl, invMaps_set_same ⟨hag, hrel⟩ hk _⟩
      · unfold zeroIfPositive
        rw [hcur, hgt]
      · unfold zeroIfPositive
        rw [hgt]

/-- Two invariant-related runs of the skills rule move in lockstep. -/
theorem skillsRuleApply_congr {m1 m2 : ScoreMap} {res : ResumeFacts}
    (hinv : InvMaps m1 m2) :
    (∃ e, skillsRuleApply m1 res = .error e ∧
      skillsRuleApply m2 res = .error e) ∨
    (∃ o1 o2, skillsRuleApply m1 res = .ok o1 ∧
      skillsRuleApply m2 res = .ok o2 ∧ o1.2 = o2.2 ∧ InvMaps o1.1 o2.1) := by
  unfold skillsRuleApply
  by_cases he : res.skills.isEmpty = true
  · simp only [if_pos he]
    exact zeroIfPositive_congr (show kSkills ≠ kFinal from by decide) hinv
  · simp only [if_neg he]
    right
    exact ⟨(m1, []), (m2, []), rfl, rfl, rfl, hinv⟩

/-- Two invariant-related runs of the projects rule move in lockstep. -/
theorem projectsRuleApply_congr {m1 m2 : ScoreMap} {res : ResumeFacts}
    (hinv : InvMaps m1 m2) :
    (∃ e, projectsRuleApply m1 res = .error e ∧
      projectsRuleApply m2 res = .error e) ∨
    (∃ o1 o2, projectsRuleApply m1 res = .ok o1 ∧
      projectsRuleApply m2 res = .ok o2 ∧ o1.2 = o2.2 ∧ InvMaps o1.1 o2.1) := by
  unfold projectsRuleApply
  by_cases he : res.projects.isEmpty = true
  · simp only [if_pos he]
    exact zeroIfPositive_congr (show kProjects ≠ kFinal from by decide) hinv
  · simp only [if_neg he]
    right
    exact ⟨(m1, []), (m2, []), rfl, rfl, rfl, hinv⟩

/-- Two invariant-related runs of the certifications rule move in
lockstep. -/
theorem certificationsRuleApply_congr {m1 m2 : ScoreMap} {res : ResumeFacts}
    (hinv : InvMaps m1 m2) :
    (∃ e, certificationsRuleApply m1 res = .error e ∧
      certificationsRuleApply m2 res = .error e) ∨
    (∃ o1 o2, certificationsRuleApply m1 res = .ok o1 ∧
      certificationsRuleApply m2 res = .ok o2 ∧ o1.2 = o2.2 ∧ InvMaps o1.1 o2.1) := by
  unfold certificationsRuleApply
  by_cases he : res.certifications.isEmpty = true
  · simp only [if_pos he]
    exact zeroIfPositive_congr (show kCertificates ≠ kFinal from by decide) hinv
  · simp only [if_neg he]
    right
    exact ⟨(m1, []), (m2, []), rfl, rfl, rfl, hinv⟩

/-- Two invariant-related runs of the experience rule move in lockstep. -/
theorem experienceRuleApply_congr {m1 m2 : ScoreMap} {res : ResumeFacts}
    (hinv : InvMaps m1 m2) :
    (∃ e, experienceRuleApply m1 res = .error e ∧
      experienceRuleApply m2 res = .error e) ∨
    (∃ o1 o2, experienceRuleApply m1 res = .ok o1 ∧
      experienceRuleApply m2 res = .ok o2 ∧ o1.2 = o2.2 ∧ InvMaps o1.1 o2.1) := by
  unfold experienceRuleApply
  by_cases he : res.experience.isEmpty = true
  · simp only [if_pos he]
    rcases zeroIfPositive_congr (show kExperience ≠ kFinal from by decide) hinv with
      ⟨e, hz1, hz2⟩ | ⟨a1, b1, hz1, hz2, hnb1, hib1⟩
    · left
      refine ⟨e, ?_, ?_⟩
      · rw [hz1]
      · rw [hz2]
    · rw [hz1, hz2]
      dsimp only
      rcases zeroIfPositive_congr (show kRelevant ≠ kFinal from by decide) hib1 with
        ⟨e, hz3, hz4⟩ | ⟨a2, b2, hz3, hz4, hnb2, hib2⟩
      · left
        refine ⟨e, ?_, ?_⟩
        · rw [hz3]
        · rw [hz4]
      · rw [hz3, hz4]
        dsimp only
        rcases zeroIfPositive_congr
            (show kResponsibilities ≠ kFinal from by decide) hib2 with
          ⟨e, hz5, hz6⟩ | ⟨a3, b3, hz5, hz6, hnb3, hib3⟩
        · left
          refine ⟨e, ?_, ?_⟩
          · rw [hz5]
          · rw [hz6]
        · right
          refine ⟨(a3.1, a1.2 ++ a2.2 ++ a3.2), (b3.1, b1.2 ++ b2.2 ++ b3.2),
            ?_, ?_, ?_, hib3⟩
          · rw [hz5]
          · rw [hz6]
          · show a1.2 ++ a2.2 ++ a3.2 = b1.2 ++ b2.2 ++ b3.2
            rw [hnb1, hnb2, hnb3]
  · simp only [if_neg he]
    right
    exact ⟨(m1, []), (m2, []), rfl, rfl, rfl, hinv⟩

/-- One generic rule step either leaves the pair unchanged or performs
exactly one write at its target, with a note. -/
theorem genericStep_cases (r : GenRule) (m : ScoreMap) (res : ResumeFacts) :
    genericStep r m res = (m, []) ∨
    (∃ nv, evalCondition r.condition res = .ok true ∧
      applyOperation r.action.operation (mapGet m r.action.target (.num 0))
        r.action.value = .ok nv ∧
      pyNe nv (mapGet m r.action.target (.num 0)) = true ∧
      genericStep r m res = (mapSet m r.action.target nv, [genericRuleNote r])) := by
  unfold genericStep genericTryRule
  rcases hc : evalCondition r.condition res with e | b
  · left
    rfl
  · cases b
    · left
      rfl
    · dsimp only
      rcases hop : applyOperation r.action.operation
          (mapGet m r.action.target (.num 0)) r.action.value with e | nv
      · left
        rfl
      · dsimp only
        by_cases hne : pyNe nv (mapGet m r.action.target (.num 0)) = true
        · rw [hne]
          right
          exact ⟨nv, rfl, rfl, hne, rfl⟩
        · rw [Bool.eq_false_iff.mpr hne]
          left
          rfl

/-- With equal current target values, two generic rule steps move in
lockstep: both skip or both write the same value. -/
theorem genericStep_lockstep {r : GenRule} (res : ResumeFacts) {m1 m2 : ScoreMap}
    (hcur : mapGet m1 r.action.target (.num 0) = mapGet m2 r.action.target (.num 0)) :
    (genericStep r m1 res = (m1, []) ∧ genericStep r m2 res = (m2, [])) ∨
    (∃ nv, genericStep r m1 res = (mapSet m1 r.action.target nv, [genericRuleNote r]) ∧
      genericStep r m2 res = (mapSet m2 r.action.target nv, [genericRuleNote r])) := by
  unfold genericStep genericTryRule
  rw [hcur]
  rcases hc : evalCondition r.condition res with e | b
  · left
    exact ⟨rfl, rfl⟩
  · cases b
    · left
      exact ⟨rfl, rfl⟩
    · dsimp only
      rcases hop : applyOperation r.action.operation
          (mapGet m2 r.action.target (.num 0)) r.action.value with e | nv
      · left
        exact ⟨rfl, rfl⟩
      · dsimp only
        by_cases hne : pyNe nv (mapGet m2 r.action.target (.num 0)) = true
        · rw [hne]
          right
          exact ⟨nv, rfl, rfl⟩
        · rw [Bool.eq_false_iff.mpr hne]
          left
          exact ⟨rfl, rfl⟩

/-- Unless the rule is a `set` of a non-numeric value, a successful action
on a numeric current value is numeric again. -/
theorem applyOperation_num_result {op : Str} {q : ℚ} {val nv : PyVal}
    (h : op ≠ "set".data ∨ ∃ qv : ℚ, val = .num qv)
    (hop : applyOperation op (.num q) val = .ok nv) : ∃ q2 : ℚ, nv = .num q2 := by
  unfold applyOperation at hop
  by_cases hcap : op = "cap".data
  · rw [if_pos hcap] at hop
    cases val with
    | null => exact Except.noConfusion hop
    | num v =>
        injection hop with h2
        exact ⟨_, h2.symm⟩
    | str s => exact Except.noConfusion hop
  · rw [if_neg hcap] at hop
    by_cases hmul : op = "multiply".data
    · rw [if_pos hmul] at hop
      cases val with
      | null => exact Except.noConfusion hop
      | num v =>
          injection hop with h2
          exact ⟨_, h2.symm⟩
      | str s =>
          dsimp only at hop
          by_cases hden : q.den = 1
          · rw [if_pos hden] at hop
            rcases hint : pyIntOfStr (strRepeat s q.num) with _ | n
            · rw [hint] at hop
              exact Except.noConfusion hop
            · rw [hint] at hop
              injection hop with h2
              exact ⟨_, h2.symm⟩
          · rw [if_neg hden] at hop
            exact Except.noConfusion hop
    · rw [if_neg hmul] at hop
      by_cases hset : op = "set".data
      · rcases h with hns | ⟨qv, hqv⟩
        · exact absurd hset hns
        · rw [if_pos hset] at hop
          injection hop with h2
          rw [← h2, hqv]
          exact ⟨qv, rfl⟩
      · rw [if_neg hset] at hop
        injection hop with h2
        exact ⟨q, h2.symm⟩

/-- A `set` action always succeeds with the configured value. -/
theorem applyOperation_set_eq (cur val : PyVal) :
    applyOperation "set".data cur val = .ok val := rfl

/-- A non-numeric value always compares unequal to a number. -/
theorem pyNe_non_num_num {v : PyVal} {q : ℚ} (h : ∀ qv : ℚ, v ≠ .num qv) :
    pyNe v (.num q) = true := by
  cases v with
  | null => rfl
  | num qv => exact absurd rfl (h qv)
  | str s => rfl

/-- A rule whose condition evaluates to false is a no-op step. -/
theorem genericStep_cond_false {r : GenRule} {res : ResumeFacts}
    (hc : evalCondition r.condition res = .ok false) (m : ScoreMap) :
    genericStep r m res = (m, []) := by
  unfold genericStep genericTryRule
  rw [hc]

/-- A triggered `set` of a non-numeric value over a numeric current value
always writes the configured value. -/
theorem genericStep_set_nonnum {r : GenRule} {res : ResumeFacts} {m : ScoreMap} {q : ℚ}
    (hset : r.action.operation = "set".data)
    (hnn : ∀ qv : ℚ, r.action.value ≠ .num qv)
    (hcond : evalCondition r.condition res = .ok true)
    (hq : mapGet m r.action.target (.num 0) = .num q) :
    genericStep r m res =
      (mapSet m r.action.target r.action.value, [genericRuleNote r]) := by
  unfold genericStep genericTryRule
  rw [hcond]
  dsimp only
  rw [hset, applyOperation_set_eq, hq]
  dsimp only
  rw [pyNe_non_num_num hnn]

/-- A rule targeting the final key keeps a numeric final entry numeric,
unless it is a `set` of a non-numeric value. -/
theorem genericStep_final_num {r : GenRule} {res : ResumeFacts} {m : ScoreMap} {q : ℚ}
    (ht : r.action.target = kFinal)
    (hq : mapGet m kFinal (.num 0) = .num q)
    (h : r.action.operation ≠ "set".data ∨ ∃ qv : ℚ, r.action.value = .num qv) :
    ∃ q2 : ℚ, mapGet (genericStep r m res).1 kFinal (.num 0) = .num q2 := by
  rcases genericStep_cases r m res with hstep | ⟨nv, hcond, hop, hne, hstep⟩
  · simp only [hstep]
    exact ⟨q, hq⟩
  · simp only [hstep]
    rw [ht, mapGet_set_self]
    rw [ht, hq] at hop
    exact applyOperation_num_result h hop

/-- A rule targeting the final key preserves the final-entry relation
between two runs. -/
theorem genericStep_final_rel {r : GenRule} {res : ResumeFacts} {m1 m2 : ScoreMap}
    (ht : r.action.target = kFinal)
    (hrel : FinalRel (mapGet m1 kFinal (.num 0)) (mapGet m2 kFinal (.num 0))) :
    FinalRel (mapGet (genericStep r m1 res).1 kFinal (.num 0))
      (mapGet (genericStep r m2 res).1 kFinal (.num 0)) := by
  rcases hrel with ⟨q1, q2, hq1, hq2⟩ | heq
  · by_cases hsv : r.action.operation = "set".data ∧ ∀ qv : ℚ, r.action.value ≠ .num qv
    · obtain ⟨hset, hnn⟩ := hsv
      rcases hcond : evalCondition r.condition res with e | b
      · simp only [genericStep_cond_fault hcond]
        left
        exact ⟨q1, q2, hq1, hq2⟩
      · cases b
        · simp only [genericStep_cond_false hcond]
          left
          exact ⟨q1, q2, hq1, hq2⟩
        · have hq1t : mapGet m1 r.action.target (.num 0) = .num q1 := by
            rw [ht]
            exact hq1
          have hq2t : mapGet m2 r.action.target (.num 0) = .num q2 := by
            rw [ht]
            exact hq2
          simp only [genericStep_set_nonnum hset hnn hcond hq1t,
            genericStep_set_nonnum hset hnn hcond hq2t]
          rw [ht, mapGet_set_self, mapGet_set_self]
          right
          rfl
    · have h : r.action.operation ≠ "set".data ∨ ∃ qv : ℚ, r.action.value = .num qv := by
        by_cases hset : r.action.operation = "set".data
        · right
          by_contra hno
          push_neg at hno
          exact hsv ⟨hset, hno⟩
        · left
          exact hset
      obtain ⟨qa, hqa⟩ := genericStep_final_num ht hq1 h
      obtain ⟨qb, hqb⟩ := genericStep_final_num ht hq2 h
      left
      exact ⟨qa, qb, hqa, hqb⟩
  · have hcur : mapGet m1 r.action.target (.num 0) =
        mapGet m2 r.action.target (.num 0) := by
      rw [ht]
      exact heq
    rcases genericStep_lockstep res hcur with ⟨h1, h2⟩ | ⟨nv, h1, h2⟩
    · simp only [h1, h2]
      right
      exact heq
    · simp only [h1, h2]
      rw [ht, mapGet_set_self, mapGet_set_self]
      right
      rfl

/-- One generic rule step preserves the two-run invariant. -/
theorem genericStep_invMaps {r : GenRule} {res : ResumeFacts} {m1 m2 : ScoreMap}
    (hinv : InvMaps m1 m2) :
    InvMaps (genericStep r m1 res).1 (genericStep r m2 res).1 := by
  obtain ⟨hag, hrel⟩ := hinv
  by_cases ht : r.action.target = kFinal
  · refine ⟨?_, genericStep_final_rel ht hrel⟩
    intro k hk d
    rcases genericStep_cases r m1 res with h1 | ⟨nv1, hc1, ho1, hn1, h1⟩
    · rcases genericStep_cases r m2 res with h2 | ⟨nv2, hc2, ho2, hn2, h2⟩
      · simp only [h1, h2]
        exact hag k hk d
      · simp only [h1, h2]
        rw [ht, mapGet_set_ne _ _ _ hk]
        exact hag k hk d
    · rcases genericStep_cases r m2 res with h2 | ⟨nv2, hc2, ho2, hn2, h2⟩
      · simp only [h1, h2]
        rw [ht, mapGet_set_ne _ _ _ hk]
        exact hag k hk d
      · simp only [h1, h2]
        rw [ht, mapGet_set_ne _ _ _ hk, mapGet_set_ne _ _ _ hk]
        exact hag k hk d
  · have hcur : mapGet m1 r.action.target (.num 0) =
        mapGet m2 r.action.target (.num 0) := hag r.action.target ht _
    rcases genericStep_lockstep res hcur with ⟨h1, h2⟩ | ⟨nv, h1, h2⟩
    · simp only [h1, h2]
      exact ⟨hag, hrel⟩
    · simp only [h1, h2]
      exact invMaps_set_same ⟨hag, hrel⟩ ht nv

/-- The generic rule chain preserves the two-run invariant. -/
theorem genericApplyRules_invMaps (rules : List GenRule) (res : ResumeFacts)
    {m1 m2 : ScoreMap} (hinv : InvMaps m1 m2) :
    InvMaps (genericApplyRules rules m1 res).1 (genericApplyRules rules m2 res).1 := by
  induction rules generalizing m1 m2 with
  | nil => exact hinv
  | cons r rest ih =>
      show InvMaps (genericApplyRules rest (genericStep r m1 res).1 res).1
        (genericApplyRules rest (genericStep r m2 res).1 res).1
      exact ih (genericStep_invMaps hinv)

/-- A step that turns a string `notes` entry into a non-string must have
appended a note. -/
theorem genericStep_notes_poison {r : GenRule} {res : ResumeFacts} {m : ScoreMap}
    (hpre : isStrVal (mapGet m kNotes (.str [])) = true)
    (hpost : isStrVal (mapGet (genericStep r m res).1 kNotes (.str [])) = false) :
    (genericStep r m res).2 ≠ [] := by
  rcases genericStep_cases r m res with h | ⟨nv, hc, ho, hn, h⟩
  · simp only [h] at hpost
    rw [hpre] at hpost
    exact Bool.noConfusion hpost
  · simp only [h]
    exact List.cons_ne_nil _ _

/-- If the generic chain leaves a non-string in the `notes` slot that was
a string before it, some rule of the chain appended a note. -/
theorem genericApplyRules_poison (rules : List GenRule) {res : ResumeFacts}
    (m : ScoreMap) (hpre : isStrVal (mapGet m kNotes (.str [])) = true) :
    isStrVal (mapGet (genericApplyRules rules m res).1 kNotes (.str [])) = true ∨
    (genericApplyRules rules m res).2 ≠ [] := by
  induction rules generalizing m with
  | nil =>
      left
      exact hpre
  | cons r rest ih =>
      have hshow : genericApplyRules (r :: rest) m res =
          ((genericApplyRules rest (genericStep r m res).1 res).1,
            (genericStep r m res).2 ++
              (genericApplyRules rest (genericStep r m res).1 res).2) := rfl
      simp only [hshow]
      by_cases hs : isStrVal (mapGet (genericStep r m res).1 kNotes (.str [])) = true
      · rcases ih (genericStep r m res).1 hs with hstr | hne
        · left
          exact hstr
        · right
          exact List.append_ne_nil_of_right_ne_nil _ hne
      · right
        have hsn : isStrVal (mapGet (genericStep r m res).1 kNotes (.str [])) = false :=
          Bool.eq_false_iff.mpr hs
        exact List.append_ne_nil_of_left_ne_nil (genericStep_notes_poison hpre hsn) _

/-- The guardrail pipeline written out after four successful built-in
stages. -/
theorem applyGuardrails_eq (rules : List GenRule) {m : ScoreMap}
    {res : ResumeFacts} {a1 a2 a3 a4 : ScoreMap × List Str}
    (h1 : skillsRuleApply m res = .ok a1)
    (h2 : experienceRuleApply a1.1 res = .ok a2)
    (h3 : projectsRuleApply a2.1 res = .ok a3)
    (h4 : certificationsRuleApply a3.1 res = .ok a4) :
    applyGuardrails rules m res =
      (if (a1.2 ++ a2.2 ++ a3.2 ++ a4.2 ++
          (genericApplyRules rules a4.1 res).2).isEmpty then
        .ok (genericApplyRules rules a4.1 res).1
      else
        match mapGet (genericApplyRules rules a4.1 res).1 kNotes (.str []) with
        | .str existing =>
            .ok (mapSet (genericApplyRules rules a4.1 res).1 kNotes
              (.str ((existing ++ [' '] ++
                joinSpace (a1.2 ++ a2.2 ++ a3.2 ++ a4.2 ++
                  (genericApplyRules rules a4.1 res).2)).take 500)))
        | _ => .error "TypeError".data) := by
  unfold applyGuardrails
  rw [h1]
  dsimp only
  rw [h2]
  dsimp only
  rw [h3]
  dsimp only
  rw [h4]

/-- A failing skills stage fails the pipeline. -/
theorem applyGuardrails_err1 (rules : List GenRule) {m : ScoreMap}
    {res : ResumeFacts} {e : Str} (h : skillsRuleApply m res = .error e) :
    applyGuardrails rules m res = .error e := by
  unfold applyGuardrails
  rw [h]

/-- A failing experience stage fails the pipeline. -/
theorem applyGuardrails_err2 (rules : List GenRule) {m : ScoreMap}
    {res : ResumeFacts} {a1 : ScoreMap × List Str} {e : Str}
    (h1 : skillsRuleApply m res = .ok a1)
    (h2 : experienceRuleApply a1.1 res = .error e) :
    applyGuardrails rules m res = .error e := by
  unfold applyGuardrails
  rw [h1]
  dsimp only
  rw [h2]

/-- A failing projects stage fails the pipeline. -/
theorem applyGuardrails_err3 (rules : List GenRule) {m : ScoreMap}
    {res : ResumeFacts} {a1 a2 : ScoreMap × List Str} {e : Str}
    (h1 : skillsRuleApply m res = .ok a1)
    (h2 : experienceRuleApply a1.1 res = .ok a2)
    (h3 : projectsRuleApply a2.1 res = .error e) :
    applyGuardrails rules m res = .error e := by
  unfold applyGuardrails
  rw [h1]
  dsimp only
  rw [h2]
  dsimp only
  rw [h3]

/-- A failing certifications stage fails the pipeline. -/
theorem applyGuardrails_err4 (rules : List GenRule) {m : ScoreMap}
    {res : ResumeFacts} {a1 a2 a3 : ScoreMap × List Str} {e : Str}
    (h1 : skillsRuleApply m res = .ok a1)
    (h2 : experienceRuleApply a1.1 res = .ok a2)
    (h3 : projectsRuleApply a2.1 res = .ok a3)
    (h4 : certificationsRuleApply a3.1 res = .error e) :
    applyGuardrails rules m res = .error e := by
  unfold applyGuardrails
  rw [h1]
  dsimp only
  rw [h2]
  dsimp only
  rw [h3]
  dsimp only
  rw [h4]

/-- After four successful built-in stages, if the generic chain leaves a
string in the `notes` slot the pipeline succeeds with a map that agrees
with the chain's output on all ten category keys. -/
theorem applyGuardrails_ok_of_strEntry (rules : List GenRule) {m : ScoreMap}
    {res : ResumeFacts} {a1 a2 a3 a4 : ScoreMap × List Str}
    (h1 : skillsRuleApply m res = .ok a1)
    (h2 : experienceRuleApply a1.1 res = .ok a2)
    (h3 : projectsRuleApply a2.1 res = .ok a3)
    (h4 : certificationsRuleApply a3.1 res = .ok a4)
    {ex : Str}
    (hex : mapGet (genericApplyRules rules a4.1 res).1 kNotes (.str []) = .str ex) :
    ∃ o, applyGuardrails rules m res = .ok o ∧
      ∀ k ∈ tenKeys, ∀ d, mapGet o k d =
        mapGet (genericApplyRules rules a4.1 res).1 k d := by
  rw [applyGuardrails_eq rules h1 h2 h3 h4]
  by_cases hemp : (a1.2 ++ a2.2 ++ a3.2 ++ a4.2 ++
      (genericApplyRules rules a4.1 res).2).isEmpty = true
  · rw [if_pos hemp]
    exact ⟨_, rfl, fun k hk d => rfl⟩
  · rw [if_neg hemp, hex]
    refine ⟨_, rfl, ?_⟩
    intro k hk d
    have hkn : k ≠ kNotes := by
      fin_cases hk <;> decide
    exact mapGet_set_ne _ _ _ hkn

/-- Two invariant-related guardrail runs either both raise or both
succeed with maps that agree on the ten category keys. -/
theorem applyGuardrails_congr {rules : List GenRule} {m1 m2 : ScoreMap}
    {res : ResumeFacts} (hinv : InvMaps m1 m2)
    (hstr : isStrVal (mapGet m1 kNotes (.str [])) = true) :
    (∃ e1 e2, applyGuardrails rules m1 res = .error e1 ∧
      applyGuardrails rules m2 res = .error e2) ∨
    (∃ o1 o2, applyGuardrails rules m1 res = .ok o1 ∧
      applyGuardrails rules m2 res = .ok o2 ∧ AgreeTen o1 o2) := by
  rcases skillsRuleApply_congr hinv with ⟨e, h11, h12⟩ | ⟨a11, a12, h11, h12, hn1, hi1⟩
  · left
    exact ⟨e, e, applyGuardrails_err1 rules h11, applyGuardrails_err1 rules h12⟩
  · rcases experienceRuleApply_congr hi1 with ⟨e, h21, h22⟩ | ⟨a21, a22, h21, h22, hn2, hi2⟩
    · left
      exact ⟨e, e, applyGuardrails_err2 rules h11 h21, applyGuardrails_err2 rules h12 h22⟩
    · rcases projectsRuleApply_congr hi2 with ⟨e, h31, h32⟩ | ⟨a31, a32, h31, h32, hn3, hi3⟩
      · left
        exact ⟨e, e, applyGuardrails_err3 rules h11 h21 h31,
          applyGuardrails_err3 rules h12 h22 h32⟩
      · rcases certificationsRuleApply_congr hi3 with
          ⟨e, h41, h42⟩ | ⟨a41, a42, h41, h42, hn4, hi4⟩
        · left
          exact ⟨e, e, applyGuardrails_err4 rules h11 h21 h31 h41,
            applyGuardrails_err4 rules h12 h22 h32 h42⟩
        · have hstr41 : isStrVal (mapGet a41.1 kNotes (.str [])) = true := by
            rw [certificationsRuleApply_other h41 (by decide) _,
              projectsRuleApply_other h31 (by decide) _,
              experienceRuleApply_other h21 (by decide) (by decide) (by decide) _,
              skillsRuleApply_other h11 (by decide) _]
            exact hstr
          obtain ⟨hag4, hrel4⟩ := hi4
          have hstr42 : isStrVal (mapGet a42.1 kNotes (.str [])) = true := by
            rw [← hag4 kNotes (by decide) (.str [])]
            exact hstr41
          have hgi := genericApplyRules_invMaps rules res ⟨hag4, hrel4⟩
          obtain ⟨hagg, hrelg⟩ := hgi
          have hentEq : mapGet (genericApplyRules rules a41.1 res).1 kNotes (.str []) =
              mapGet (genericApplyRules rules a42.1 res).1 kNotes (.str []) :=
            hagg kNotes (by decide) _
          by_cases hpn : isStrVal
              (mapGet (genericApplyRules rules a41.1 res).1 kNotes (.str [])) = true
          · right
            obtain ⟨ex1, hex1⟩ : ∃ s, mapGet (genericApplyRules rules a41.1 res).1
                kNotes (.str []) = .str s := by
              rcases hv : mapGet (genericApplyRules rules a41.1 res).1 kNotes (.str [])
                with _ | q | s
              · rw [hv] at hpn
                exact Bool.noConfusion hpn
              · rw [hv] at hpn
                exact Bool.noConfusion hpn
              · exact ⟨s, rfl⟩
            have hex2 : mapGet (genericApplyRules rules a42.1 res).1
                kNotes (.str []) = .str ex1 := by
              rw [← hentEq]
              exact hex1
            obtain ⟨o1, ho1, hten1⟩ :=
              applyGuardrails_ok_of_strEntry rules h11 h21 h31 h41 hex1
            obtain ⟨o2, ho2, hten2⟩ :=
              applyGuardrails_ok_of_strEntry rules h12 h22 h32 h42 hex2
            refine ⟨o1, o2, ho1, ho2, ?_⟩
            intro k hk d
            rw [hten1 k hk d, hten2 k hk d]
            have hkf : k ≠ kFinal := by
              fin_cases hk <;> decide
            exact hagg k hkf d
          · left
            have hpn1 : isStrVal (mapGet (genericApplyRules rules a41.1 res).1
                kNotes (.str [])) = false := Bool.eq_false_iff.mpr hpn
            have hpn2 : isStrVal (mapGet (genericApplyRules rules a42.1 res).1
                kNotes (.str [])) = false := by
              rw [← hentEq]
              exact hpn1
            have hne1 : (genericApplyRules rules a41.1 res).2 ≠ [] := by
              rcases genericApplyRules_poison rules a41.1 hstr41 with hx | hx
              · rw [hpn1] at hx
                exact Bool.noConfusion hx
              · exact hx
            have hne2 : (genericApplyRules rules a42.1 res).2 ≠ [] := by
              rcases genericApplyRules_poison rules a42.1 hstr42 with hx | hx
              · rw [hpn2] at hx
                exact Bool.noConfusion hx
              · exact hx
            have hall1 : (a11.2 ++ a21.2 ++ a31.2 ++ a41.2 ++
                (genericApplyRules rules a41.1 res).2) ≠ [] :=
              List.append_ne_nil_of_right_ne_nil _ hne1
            have hall2 : (a12.2 ++ a22.2 ++ a32.2 ++ a42.2 ++
                (genericApplyRules rules a42.1 res).2) ≠ [] :=
              List.append_ne_nil_of_right_ne_nil _ hne2
            refine ⟨"TypeError".data, "TypeError".data, ?_, ?_⟩
            · rw [applyGuardrails_eq rules h11 h21 h31 h41,
                if_neg (fun hc => hall1 (List.isEmpty_iff.mp hc))]
              rcases hv : mapGet (genericApplyRules rules a41.1 res).1 kNotes (.str [])
                with _ | q | s
              · rfl
              · rfl
              · rw [hv] at hpn1
                exact Bool.noConfusion hpn1
            · rw [applyGuardrails_eq rules h12 h22 h32 h42,
                if_neg (fun hc => hall2 (List.isEmpty_iff.mp hc))]
              rcases hv : mapGet (genericApplyRules rules a42.1 res).1 kNotes (.str [])
                with _ | q | s
              · rfl
              · rfl
              · rw [hv] at hpn2
                exact Bool.noConfusion hpn2

/-- The weighted sum reads only the listed keys. -/
theorem weightedSum_congr {m1 m2 : ScoreMap} (kws : List (Str × ℚ))
    (h : ∀ k wq, (k, wq) ∈ kws → mapGet m1 k (.num 0) = mapGet m2 k (.num 0)) :
    weightedSum m1 kws = weightedSum m2 kws := by
  induction kws with
  | nil => rfl
  | cons kw rest ih =>
      obtain ⟨k, w⟩ := kw
      simp only [weightedSum]
      rw [h k w (List.mem_cons_self _ _),
        ih fun k2 w2 hm => h k2 w2 (List.mem_cons_of_mem _ hm)]

/-- The aggregator reads only the ten category keys. -/
theorem computeWeightedFinal_congr {m1 m2 : ScoreMap} (w : ScoringWeights)
    (h : AgreeTen m1 m2) :
    computeWeightedFinal m1 w = computeWeightedFinal m2 w := by
  unfold computeWeightedFinal
  have hws : weightedSum m1 (weightItems w) = weightedSum m2 (weightItems w) := by
    apply weightedSum_congr
    intro k wq hkw
    have hmem : k ∈ tenKeys := by
      simp only [weightItems, List.mem_cons, List.not_mem_nil, or_false,
        Prod.mk.injEq] at hkw
      rcases hkw with ⟨h1, _⟩ | ⟨h1, _⟩ | ⟨h1, _⟩ | ⟨h1, _⟩ | ⟨h1, _⟩ |
        ⟨h1, _⟩ | ⟨h1, _⟩ | ⟨h1, _⟩ | ⟨h1, _⟩ | ⟨h1, _⟩ <;>
        (rw [h1]; decide)
    exact h k hmem (.num 0)
  rw [hws]

/-- Claim C1 (confirmed): `validate_ai_score_output` always overwrites
`final_score` with the weighted aggregate of the ten category scores of
the post-coercion, post-guardrail map (for every successful run the
returned map satisfies `final_score = round(Σ s_i w_i)` over its own ten
category entries), and the oracle's own `final_score` field is never read
for this purpose: overwriting the input's `final_score` with any value
leaves the returned `final_score` — including whether the run succeeds at
all — unchanged. -/
theorem c1_final_recompute (raw : ScoreMap) (v : PyVal) (w : ScoringWeights)
    (ctx : Option ResumeFacts) (rules : List GenRule) :
    ((validateAiScoreOutput (mapSet raw kFinal v) w ctx rules).toOption.map
        fun mm => mapGet mm kFinal (.num 0)) =
      ((validateAiScoreOutput raw w ctx rules).toOption.map
        fun mm => mapGet mm kFinal (.num 0)) ∧
    (∀ out, validateAiScoreOutput raw w ctx rules = .ok out →
      ∃ f : ℤ, computeWeightedFinal out w = .ok f ∧
        mapGet out kFinal (.num 0) = .num (f : ℚ)) := by
  constructor
  · have hco : InvMaps (coerceOut (mapSet raw kFinal v)) (coerceOut raw) := by
      refine ⟨coerceOut_agreeOff raw v, ?_⟩
      rw [coerceOut_final_num, coerceOut_final_num]
      left
      exact ⟨_, _, rfl, rfl⟩
    have hten : ∀ {x1 x2 : ScoreMap}, AgreeOff x1 x2 → AgreeTen x1 x2 := by
      intro x1 x2 ha k hk d
      have hkf : k ≠ kFinal := by
        fin_cases hk <;> decide
      exact ha k hkf d
    rcases ctx with _ | res
    · unfold validateAiScoreOutput
      dsimp only
      have hcw : computeWeightedFinal (coerceOut (mapSet raw kFinal v)) w =
          computeWeightedFinal (coerceOut raw) w :=
        computeWeightedFinal_congr w (hten hco.1)
      rcases hfin : computeWeightedFinal (coerceOut raw) w with e | f
      · rw [hcw, hfin]
      · rw [hcw, hfin]
        show some (mapGet (mapSet (coerceOut (mapSet raw kFinal v)) kFinal
            (.num (f : ℚ))) kFinal (.num 0)) =
          some (mapGet (mapSet (coerceOut raw) kFinal (.num (f : ℚ))) kFinal (.num 0))
        rw [mapGet_set_self, mapGet_set_self]
    · have hstrc : isStrVal (mapGet (coerceOut (mapSet raw kFinal v))
          kNotes (.str [])) = true := coerceOut_notes_isStr _
      rcases applyGuardrails_congr hco hstrc with
        ⟨e1, e2, hg1, hg2⟩ | ⟨o1, o2, hg1, hg2, hagree⟩
      · unfold validateAiScoreOutput
        dsimp only
        rw [hg1, hg2]
        rfl
      · unfold validateAiScoreOutput
        dsimp only
        rw [hg1, hg2]
        dsimp only
        have hcw : computeWeightedFinal o1 w = computeWeightedFinal o2 w :=
          computeWeightedFinal_congr w hagree
        rcases hfin : computeWeightedFinal o2 w with e | f
        · rw [hcw, hfin]
        · rw [hcw, hfin]
          show some (mapGet (mapSet o1 kFinal (.num (f : ℚ))) kFinal (.num 0)) =
            some (mapGet (mapSet o2 kFinal (.num (f : ℚ))) kFinal (.num 0))
          rw [mapGet_set_self, mapGet_set_self]
  · intro out hok
    obtain ⟨out2, f, hout, hfin, _⟩ := validateAiScoreOutput_decomp hok
    refine ⟨f, ?_, ?_⟩
    · rw [hout]
      have hag : AgreeTen (mapSet out2 kFinal (.num (f : ℚ))) out2 := by
        intro k hk d
        have hkf : k ≠ kFinal := by
          fin_cases hk <;> decide
        exact mapGet_set_ne _ _ _ hkf
      rw [computeWeightedFinal_congr w hag]
      exact hfin
    · rw [hout, mapGet_set_self]

/-- Witness for C1 at a concrete oracle output, weight record, resume and
rule list (the inner obligation is the full instantiated statement). -/
theorem c1_witness :
    (((validateAiScoreOutput (mapSet rawFix kFinal (.num 999)) {}
          (some resFix) []).toOption.map
        fun mm => mapGet mm kFinal (.num 0)) =
      ((validateAiScoreOutput rawFix {} (some resFix) []).toOption.map
        fun mm => mapGet mm kFinal (.num 0)) ∧
    (∀ out, validateAiScoreOutput rawFix {} (some resFix) [] = .ok out →
      ∃ f : ℤ, computeWeightedFinal out {} = .ok f ∧
        mapGet out kFinal (.num 0) = .num (f : ℚ))) :=
  c1_final_recompute rawFix (.num 999) {} (some resFix) []

end Raiya
